import Mathlib

/-!
# Appledore `GraphMatrix`: a dense adjacency-matrix graph container

Shallow embedding of `include/GraphMatrix.h`.

* `std::map<VertexType, size_t>` is an association list with unique keys
  (`mapCount`, `mapAt`, `mapSubscript`, `mapAssign` are `count`, `at`,
  reading `operator[]` and `operator[] =`); the iteration order of the map is
  never observed by the class, so the list is kept in insertion order.
* `std::vector` is a `List`; `v[i]` reads with `vectorAt`, writes with
  `List.set`, and `resize` is `vectorResize`.  An access past the end is
  undefined behaviour in C++; the model reads `none` / the default label and
  drops the write, and `Inv.index_lt_length` shows that no reachable state
  ever performs such an access.
* `std::set<VertexType>` is a strictly increasing list (`setInsert`).
* `size_t` is `Nat`: the matrix has `numVertices * numVertices` entries, so the
  vector allocation fails long before any index computation can wrap.
* An exception is an `Except Error` result.  The const members return it
  alone; `addEdge` and `removeEdge` return it with the state the object is left
  in, and `operator()` (non-const, never throwing) returns its answer with the
  state.
* The unweighted overload `addEdge(src, dest)` builds `EdgeInfo<EdgeType>()`,
  and `EdgeInfo` has no default constructor, so no program can instantiate it;
  it is left out.
-/

namespace Appledore

/-! ## Tag types and helper records -/

/-- The `Direction` template argument.  `DirectedG` and `UndirectedG` are the
two tag structures of the header; `OtherG` stands for any other type a caller
may instantiate the template with. -/
inductive Direction where
  | DirectedG
  | UndirectedG
  | OtherG
  deriving DecidableEq, Repr

/-- The exceptions thrown by the container, each with its `what()` text. -/
inductive Error where
  | invalid_argument (what : String)
  | runtime_error (what : String)
  | out_of_range (what : String)
  deriving DecidableEq, Repr

/-- The record `EdgeInfo<EdgeType>` stored in a present slot. -/
structure EdgeInfo (E : Type) where
  value : E
  deriving DecidableEq, Repr

/-! ## Standard-library containers -/

section Containers

variable {V E : Type}

/-- The call `m.count(k)` of `std::map`: 1 when the key is present, else 0. -/
def mapCount [DecidableEq V] (m : List (V × Nat)) (k : V) : Nat :=
  if (m.lookup k).isSome then 1 else 0

/-- The call `m.at(k)` of `std::map`: throws `std::out_of_range` when absent. -/
def mapAt [DecidableEq V] (m : List (V × Nat)) (k : V) : Except Error Nat :=
  match m.lookup k with
  | some i => .ok i
  | none => .error (.out_of_range "map::at")

/-- Reading `m[k]` on a non-const `std::map`: an absent key is inserted with
the value-initialised index `0`. -/
def mapSubscript [DecidableEq V] (m : List (V × Nat)) (k : V) : Nat × List (V × Nat) :=
  match m.lookup k with
  | some i => (i, m)
  | none => (0, (k, 0) :: m)

/-- The assignment `m[k] = i` on a `std::map`: insert or overwrite. -/
def mapAssign [DecidableEq V] (m : List (V × Nat)) (k : V) (i : Nat) : List (V × Nat) :=
  (k, i) :: m.filter (fun kv => decide (kv.1 ≠ k))

/-- Reading `v[i]` on the matrix vector. -/
def vectorAt (v : List (Option (EdgeInfo E))) (i : Nat) : Option (EdgeInfo E) :=
  v.getD i none

/-- The call `v.resize(n, x)` of `std::vector`. -/
def vectorResize {α : Type} (v : List α) (n : Nat) (x : α) : List α :=
  v.take n ++ List.replicate (n - v.length) x

/-- The call `s.insert(v)` of `std::set`, the set being a strictly increasing list. -/
def setInsert [LinearOrder V] : List V → V → List V
  | [], v => [v]
  | x :: xs, v =>
    if v < x then v :: x :: xs
    else if x < v then x :: setInsert xs v
    else x :: xs

end Containers

/-! ## The container -/

/-- The private state of `GraphMatrix<VertexType, EdgeType, Direction>`. -/
structure GraphMatrix (V E : Type) (D : Direction) where
  vertexToIndex : List (V × Nat)
  indexToVertex : List V
  adjacencyMatrix : List (Option (EdgeInfo E))
  numVertices : Nat
  isDirected : Bool
  isWeighted : Bool

namespace GraphMatrix

variable {V E : Type} {D : Direction}

/-- The constructor `GraphMatrix()`.  `weighted` is
`!std::is_same_v<EdgeType, UnweightedG>`. -/
def empty (weighted : Bool) : GraphMatrix V E D :=
  { vertexToIndex := []
    indexToVertex := []
    adjacencyMatrix := []
    numVertices := 0
    isDirected := decide (D = Direction.DirectedG)
    isWeighted := weighted }

/-- The flat row-major position `getIndex(src, dest)`. -/
def getIndex (g : GraphMatrix V E D) (src dest : Nat) : Nat :=
  src * g.numVertices + dest

/-- The lambda `add_single_vertex` of `addVertex`. -/
def add_single_vertex [DecidableEq V] (g : GraphMatrix V E D) (vertex : V) : GraphMatrix V E D :=
  if mapCount g.vertexToIndex vertex ≠ 0 then g
  else
    let newIndex := g.numVertices
    { g with
      numVertices := g.numVertices + 1
      vertexToIndex := mapAssign g.vertexToIndex vertex newIndex
      indexToVertex := g.indexToVertex ++ [vertex] }

/-- The variadic `addVertex(vertices...)`: every label in turn, left to right,
then one `resize` of the matrix. -/
def addVertex [DecidableEq V] (g : GraphMatrix V E D) (vertices : List V) : GraphMatrix V E D :=
  let g1 := vertices.foldl add_single_vertex g
  { g1 with
    adjacencyMatrix := vectorResize g1.adjacencyMatrix (g1.numVertices * g1.numVertices) none }

/-- The callable probe `operator()(src, dest)`.  It is a non-const member that
reads the map with `operator[]`, so the model returns the state as well. -/
def operator_call [DecidableEq V] (g : GraphMatrix V E D) (src dest : V) :
    Bool × GraphMatrix V E D :=
  if mapCount g.vertexToIndex src = 0 ∨ mapCount g.vertexToIndex dest = 0 then (false, g)
  else
    let r1 := mapSubscript g.vertexToIndex src
    let r2 := mapSubscript r1.2 dest
    let g1 := { g with vertexToIndex := r2.2 }
    if (vectorAt g1.adjacencyMatrix (g1.getIndex r1.1 r2.1)).isSome then (true, g1)
    else (false, g1)

/-- The weighted `addEdge(src, dest, edge)`.  The member mutates the object
and may throw, so the model returns the outcome of the call together with the
state the object is left in. -/
def addEdge [DecidableEq V] (g : GraphMatrix V E D) (src dest : V) (edge : E) :
    Except Error Unit × GraphMatrix V E D :=
  if mapCount g.vertexToIndex src = 0 ∨ mapCount g.vertexToIndex dest = 0 then
    (.error (.invalid_argument "One or both vertices do not exist"), g)
  else
    match mapAt g.vertexToIndex src with
    | .error e => (.error e, g)
    | .ok srcIndex =>
      match mapAt g.vertexToIndex dest with
      | .error e => (.error e, g)
      | .ok destIndex =>
        let m1 := g.adjacencyMatrix.set (g.getIndex srcIndex destIndex) (some ⟨edge⟩)
        let m2 :=
          if D = Direction.UndirectedG then
            m1.set (g.getIndex destIndex srcIndex) (some ⟨edge⟩)
          else m1
        (.ok (), { g with adjacencyMatrix := m2 })

/-- The member `removeEdge(src, dest)`, returning the outcome of the call and
the state the object is left in. -/
def removeEdge [DecidableEq V] (g : GraphMatrix V E D) (src dest : V) :
    Except Error Unit × GraphMatrix V E D :=
  if mapCount g.vertexToIndex src = 0 ∨ mapCount g.vertexToIndex dest = 0 then
    (.error (.invalid_argument "One or both vertices do not exist"), g)
  else
    match mapAt g.vertexToIndex src with
    | .error e => (.error e, g)
    | .ok srcIndex =>
      match mapAt g.vertexToIndex dest with
      | .error e => (.error e, g)
      | .ok destIndex =>
        let m1 := g.adjacencyMatrix.set (g.getIndex srcIndex destIndex) none
        let m2 :=
          if !g.isDirected then m1.set (g.getIndex destIndex srcIndex) none
          else m1
        (.ok (), { g with adjacencyMatrix := m2 })

/-- The member `hasEdge(src, dest)`. -/
def hasEdge [DecidableEq V] (g : GraphMatrix V E D) (src dest : V) : Except Error Bool :=
  if mapCount g.vertexToIndex src = 0 ∨ mapCount g.vertexToIndex dest = 0 then
    .error (.invalid_argument "One or both vertices do not exist")
  else
    match mapAt g.vertexToIndex src with
    | .error e => .error e
    | .ok srcIndex =>
      match mapAt g.vertexToIndex dest with
      | .error e => .error e
      | .ok destIndex =>
        .ok (vectorAt g.adjacencyMatrix (g.getIndex srcIndex destIndex)).isSome

/-- The member `getVertices()`. -/
def getVertices (g : GraphMatrix V E D) : List V :=
  g.indexToVertex

/-- The member `getEdge(src, dest)`. -/
def getEdge [DecidableEq V] (g : GraphMatrix V E D) (src dest : V) : Except Error E :=
  if mapCount g.vertexToIndex src = 0 ∨ mapCount g.vertexToIndex dest = 0 then
    .error (.invalid_argument "One of both vertices do not exist!")
  else
    match mapAt g.vertexToIndex src with
    | .error e => .error e
    | .ok srcIndex =>
      match mapAt g.vertexToIndex dest with
      | .error e => .error e
      | .ok destIndex =>
        match vectorAt g.adjacencyMatrix (g.getIndex srcIndex destIndex) with
        | some egdeValue => .ok egdeValue.value
        | none => .error (.runtime_error "No Edge exists between the given vertices.")

/-- The member `getAllEdges()`: the two nested index loops. -/
def getAllEdges [Inhabited V] (g : GraphMatrix V E D) : List (V × V × E) :=
  (List.range g.numVertices).flatMap fun srcIndex =>
    (List.range g.numVertices).filterMap fun destIndex =>
      match vectorAt g.adjacencyMatrix (g.getIndex srcIndex destIndex) with
      | some edgeValue =>
        some (g.indexToVertex.getD srcIndex default,
              g.indexToVertex.getD destIndex default,
              edgeValue.value)
      | none => none

/-- One iteration of the loop of `getNeighbors`. -/
def neighborsStep [LinearOrder V] [Inhabited V] (g : GraphMatrix V E D) (vertexIndex : Nat)
    (neighbors : List V) (destIndex : Nat) : List V :=
  let n1 :=
    if (vectorAt g.adjacencyMatrix (g.getIndex vertexIndex destIndex)).isSome then
      setInsert neighbors (g.indexToVertex.getD destIndex default)
    else neighbors
  if D = Direction.UndirectedG then
    if (vectorAt g.adjacencyMatrix (g.getIndex destIndex vertexIndex)).isSome then
      setInsert n1 (g.indexToVertex.getD destIndex default)
    else n1
  else n1

/-- The member `getNeighbors(vertex)`. -/
def getNeighbors [LinearOrder V] [Inhabited V] (g : GraphMatrix V E D) (vertex : V) :
    Except Error (List V) :=
  if mapCount g.vertexToIndex vertex = 0 then
    .error (.invalid_argument "Vertex does not exist in the graph")
  else
    match mapAt g.vertexToIndex vertex with
    | .error e => .error e
    | .ok vertexIndex =>
      .ok ((List.range g.numVertices).foldl (neighborsStep g vertexIndex) [])

/-! ## The representation invariant and reachable states -/

/-- The representation invariant of the container. -/
structure Inv [DecidableEq V] (g : GraphMatrix V E D) : Prop where
  matrix_length : g.adjacencyMatrix.length = g.numVertices * g.numVertices
  labels_length : g.indexToVertex.length = g.numVertices
  map_length : g.vertexToIndex.length = g.numVertices
  keys_nodup : (g.vertexToIndex.map Prod.fst).Nodup
  inverse : ∀ v i, g.vertexToIndex.lookup v = some i ↔ g.indexToVertex[i]? = some v
  directed : g.isDirected = decide (D = Direction.DirectedG)

/-- The states a caller can bring the container into: any sequence of calls
of the non-const members on a freshly constructed graph, whether they return
or throw. -/
inductive Reachable [DecidableEq V] : GraphMatrix V E D → Prop
  | empty (weighted : Bool) : Reachable (empty weighted)
  | addVertex {g : GraphMatrix V E D} (vertices : List V) :
      Reachable g → Reachable (g.addVertex vertices)
  | addEdge {g : GraphMatrix V E D} (src dest : V) (edge : E) :
      Reachable g → Reachable (g.addEdge src dest edge).2
  | removeEdge {g : GraphMatrix V E D} (src dest : V) :
      Reachable g → Reachable (g.removeEdge src dest).2
  | operator_call {g : GraphMatrix V E D} (src dest : V) :
      Reachable g → Reachable (g.operator_call src dest).2

/-- The part of the invariant that does not mention the matrix. -/
structure MapInv [DecidableEq V] (g : GraphMatrix V E D) : Prop where
  labels_length : g.indexToVertex.length = g.numVertices
  map_length : g.vertexToIndex.length = g.numVertices
  keys_nodup : (g.vertexToIndex.map Prod.fst).Nodup
  inverse : ∀ v i, g.vertexToIndex.lookup v = some i ↔ g.indexToVertex[i]? = some v
  directed : g.isDirected = decide (D = Direction.DirectedG)

/-! ## Specification-side definitions -/

/-- The labels of a list in order of first occurrence, each of them once: the
head stays, and it is struck from what the tail contributes. -/
def firstOccurrences [DecidableEq V] : List V → List V
  | [] => []
  | x :: xs => x :: (firstOccurrences xs).filter (fun y => decide (y ≠ x))

/-- The enumeration the specification describes: the index pairs `(i, j)` with
`i, j < numVertices` in row-major order, every present slot giving the triple
of its two labels and its payload. -/
def rowMajorEdges [Inhabited V] (g : GraphMatrix V E D) : List (V × V × E) :=
  (List.product (List.range g.numVertices) (List.range g.numVertices)).filterMap fun ij =>
    (vectorAt g.adjacencyMatrix (g.getIndex ij.1 ij.2)).map fun e =>
      (g.indexToVertex.getD ij.1 default, g.indexToVertex.getD ij.2 default, e.value)

/-- The order of the enumeration: triple `t` precedes triple `u` when the
index of its source label is smaller, or equal with a smaller index of the
destination label. -/
def edgeBefore [DecidableEq V] (g : GraphMatrix V E D) (t u : V × V × E) : Prop :=
  ∃ i j a b, g.vertexToIndex.lookup t.1 = some i ∧ g.vertexToIndex.lookup t.2.1 = some j ∧
    g.vertexToIndex.lookup u.1 = some a ∧ g.vertexToIndex.lookup u.2.1 = some b ∧
    (i < a ∨ (i = a ∧ j < b))

/-! ## Concrete states used to exercise the theorems -/

/-- The graph with integer payloads on which the labels 1, 2, 3 were
registered in one call and no edge was inserted. -/
def threeVertices (D : Direction) : GraphMatrix Nat Int D :=
  (GraphMatrix.empty true).addVertex [1, 2, 3]

/-- The directed graph on the labels 1, 2, 3 with the edges 1 → 2 (payload 5)
and 2 → 1 (payload 7). -/
def exampleDirected : GraphMatrix Nat Int Direction.DirectedG :=
  (((threeVertices Direction.DirectedG).addEdge 1 2 5).2.addEdge 2 1 7).2

/-- The undirected graph on the labels 1, 2, 3 with the edge 1 – 2 (payload 5). -/
def exampleUndirected : GraphMatrix Nat Int Direction.UndirectedG :=
  ((threeVertices Direction.UndirectedG).addEdge 1 2 5).2

/-- The undirected graph obtained by registering 1 and 2 and inserting the edge
1 – 2 (payload 5). -/
def exampleBeforeGrowth : GraphMatrix Nat Int Direction.UndirectedG :=
  (((GraphMatrix.empty true : GraphMatrix Nat Int Direction.UndirectedG).addVertex
    [1, 2]).addEdge 1 2 5).2

/-- The undirected graph obtained by registering 1 and 2, inserting the edge
1 – 2 (payload 5) and then registering 3. -/
def exampleGrown : GraphMatrix Nat Int Direction.UndirectedG :=
  exampleBeforeGrowth.addVertex [3]

/-- The directed graph obtained by registering 2 and 1 (in this order),
inserting the edge 1 → 2 (payload 5) and then registering 3. -/
def exampleDirectedGrown : GraphMatrix Nat Int Direction.DirectedG :=
  (((GraphMatrix.empty true : GraphMatrix Nat Int Direction.DirectedG).addVertex
    [2, 1]).addEdge 1 2 5).2.addVertex [3]

/-- The scenario of the specification on a directed graph with integer
payloads: register `A`, `B`, `C` in one call, then insert `A → B` with
payload 10 and `B → C` with payload 20. -/
def scenario [DecidableEq V] (A B C : V) : GraphMatrix V Int Direction.DirectedG :=
  ((((GraphMatrix.empty true : GraphMatrix V Int Direction.DirectedG).addVertex
    [A, B, C]).addEdge A B 10).2.addEdge B C 20).2

end GraphMatrix

/-! ## Facts about the container models -/

section ContainerFacts

variable {V E : Type}

theorem mapCount_eq_zero_iff [DecidableEq V] (m : List (V × Nat)) (k : V) :
    mapCount m k = 0 ↔ m.lookup k = none := by
  unfold mapCount
  cases h : m.lookup k <;> simp

theorem mapCount_ne_zero_iff [DecidableEq V] (m : List (V × Nat)) (k : V) :
    mapCount m k ≠ 0 ↔ ∃ i, m.lookup k = some i := by
  unfold mapCount
  cases h : m.lookup k <;> simp

theorem mapAt_of_lookup [DecidableEq V] {m : List (V × Nat)} {k : V} {i : Nat}
    (h : m.lookup k = some i) : mapAt m k = .ok i := by
  simp [mapAt, h]

theorem mapSubscript_of_lookup [DecidableEq V] {m : List (V × Nat)} {k : V} {i : Nat}
    (h : m.lookup k = some i) : mapSubscript m k = (i, m) := by
  simp [mapSubscript, h]

theorem lookup_eq_none_iff_not_mem_keys [DecidableEq V] (m : List (V × Nat)) (k : V) :
    m.lookup k = none ↔ k ∉ m.map Prod.fst := by
  induction m with
  | nil => simp
  | cons kv m ih =>
    obtain ⟨a, b⟩ := kv
    by_cases h : k = a
    · subst h; simp [List.lookup_cons]
    · have hb : (k == a) = false := by simpa using h
      simp [List.lookup_cons, hb, ih, h]

theorem filter_keys_of_lookup_none [DecidableEq V] {m : List (V × Nat)} {k : V}
    (h : m.lookup k = none) : m.filter (fun kv => decide (kv.1 ≠ k)) = m := by
  rw [lookup_eq_none_iff_not_mem_keys] at h
  rw [List.filter_eq_self]
  intro kv hkv
  have : kv.1 ≠ k := by
    intro he
    exact h (he ▸ List.mem_map_of_mem Prod.fst hkv)
  simpa using this

theorem mapAssign_of_lookup_none [DecidableEq V] {m : List (V × Nat)} {k : V} (i : Nat)
    (h : m.lookup k = none) : mapAssign m k i = (k, i) :: m := by
  simp only [mapAssign, filter_keys_of_lookup_none h]

theorem lookup_cons_fresh [DecidableEq V] (m : List (V × Nat)) (k a : V) (i : Nat) :
    List.lookup a ((k, i) :: m) = if a = k then some i else m.lookup a := by
  by_cases h : a = k
  · subst h; simp [List.lookup_cons]
  · have hb : (a == k) = false := by simpa using h
    simp [List.lookup_cons, hb, h]

theorem vectorAt_set_self (v : List (Option (EdgeInfo E))) {i : Nat} (x : Option (EdgeInfo E))
    (h : i < v.length) : vectorAt (v.set i x) i = x := by
  simp [vectorAt, List.getD_eq_getElem?_getD, List.getElem?_set, h]

theorem vectorAt_set_ne (v : List (Option (EdgeInfo E))) {i j : Nat} (x : Option (EdgeInfo E))
    (h : i ≠ j) : vectorAt (v.set i x) j = vectorAt v j := by
  simp [vectorAt, List.getD_eq_getElem?_getD, List.getElem?_set, h]

theorem length_vectorResize {α : Type} (v : List α) (n : Nat) (x : α) :
    (vectorResize v n x).length = n := by
  simp only [vectorResize, List.length_append, List.length_take, List.length_replicate]
  omega

/-- Row-major addressing is injective on in-range index pairs. -/
theorem flat_index_inj {n i j a b : Nat} (hj : j < n) (hb : b < n)
    (h : i * n + j = a * n + b) : i = a ∧ j = b := by
  have hn : 0 < n := by omega
  have h1 : (i * n + j) / n = i := by
    rw [Nat.add_comm, Nat.add_mul_div_right _ _ hn, Nat.div_eq_of_lt hj, Nat.zero_add]
  have h2 : (a * n + b) / n = a := by
    rw [Nat.add_comm, Nat.add_mul_div_right _ _ hn, Nat.div_eq_of_lt hb, Nat.zero_add]
  have hia : i = a := by rw [← h1, ← h2, h]
  subst hia
  exact ⟨rfl, by omega⟩

/-- Row-major addressing stays below `n * n` on in-range index pairs. -/
theorem flat_index_lt {n i j : Nat} (hi : i < n) (hj : j < n) : i * n + j < n * n := by
  have : (i + 1) * n ≤ n * n := Nat.mul_le_mul_right n hi
  rw [Nat.add_mul, Nat.one_mul] at this
  omega

end ContainerFacts

namespace GraphMatrix

variable {V E : Type} {D : Direction}

/-! ## The invariant holds in every reachable state -/

theorem Inv.toMapInv [DecidableEq V] {g : GraphMatrix V E D} (h : Inv g) : MapInv g :=
  ⟨h.labels_length, h.map_length, h.keys_nodup, h.inverse, h.directed⟩

theorem MapInv.add_single_vertex [DecidableEq V] {g : GraphMatrix V E D} (h : MapInv g)
    (vertex : V) : MapInv (g.add_single_vertex vertex) := by
  unfold GraphMatrix.add_single_vertex
  by_cases hc : mapCount g.vertexToIndex vertex ≠ 0
  · simpa [hc] using h
  · have hnone : g.vertexToIndex.lookup vertex = none := by
      rw [← mapCount_eq_zero_iff]; simpa using hc
    rw [if_neg hc]
    simp only [mapAssign_of_lookup_none _ hnone]
    refine ⟨?_, ?_, ?_, ?_, h.directed⟩
    · simp [h.labels_length]
    · simp [h.map_length]
    · simp only [List.map_cons, List.nodup_cons]
      exact ⟨(lookup_eq_none_iff_not_mem_keys _ _).1 hnone, h.keys_nodup⟩
    · intro v i
      simp only [lookup_cons_fresh]
      by_cases hv : v = vertex
      · subst hv
        simp only [if_true]
        constructor
        · intro hi
          have : i = g.indexToVertex.length := by
            rw [h.labels_length]; exact (Option.some.inj hi).symm
          subst this
          simp
        · intro hi
          by_cases hlt : i < g.indexToVertex.length
          · rw [List.getElem?_append_left hlt] at hi
            have := (h.inverse v i).2 hi
            rw [hnone] at this; cases this
          · have hlen : (g.indexToVertex ++ [v]).length = g.indexToVertex.length + 1 := by simp
            have hi2 : i < (g.indexToVertex ++ [v]).length := by
              rcases List.getElem?_eq_some_iff.1 hi with ⟨hh, _⟩; exact hh
            have : i = g.numVertices := by rw [← h.labels_length]; omega
            rw [this]
      · simp only [if_neg hv]
        rw [h.inverse v i]
        constructor
        · intro hi
          have hlt : i < g.indexToVertex.length := by
            rcases List.getElem?_eq_some_iff.1 hi with ⟨hh, _⟩; exact hh
          rw [List.getElem?_append_left hlt]; exact hi
        · intro hi
          by_cases hlt : i < g.indexToVertex.length
          · rw [List.getElem?_append_left hlt] at hi; exact hi
          · have hi2 : i < (g.indexToVertex ++ [vertex]).length := by
              rcases List.getElem?_eq_some_iff.1 hi with ⟨hh, _⟩; exact hh
            have hlen : (g.indexToVertex ++ [vertex]).length = g.indexToVertex.length + 1 := by
              simp
            have : i = g.indexToVertex.length := by omega
            subst this
            rw [List.getElem?_concat_length] at hi
            exact absurd (Option.some.inj hi).symm hv

theorem MapInv.foldl_add_single_vertex [DecidableEq V] (vertices : List V) :
    ∀ {g : GraphMatrix V E D}, MapInv g → MapInv (vertices.foldl GraphMatrix.add_single_vertex g) := by
  induction vertices with
  | nil => intro g h; exact h
  | cons v vs ih => intro g h; exact ih (h.add_single_vertex v)

theorem Inv.addVertex [DecidableEq V] {g : GraphMatrix V E D} (h : Inv g) (vertices : List V) :
    Inv (g.addVertex vertices) := by
  have hm := MapInv.foldl_add_single_vertex vertices h.toMapInv
  exact ⟨length_vectorResize _ _ _, hm.labels_length, hm.map_length, hm.keys_nodup,
    hm.inverse, hm.directed⟩

theorem Inv.empty [DecidableEq V] (weighted : Bool) :
    Inv (GraphMatrix.empty weighted : GraphMatrix V E D) := by
  refine ⟨rfl, rfl, rfl, by simp [GraphMatrix.empty], ?_, rfl⟩
  intro v i
  simp [GraphMatrix.empty]

/-! ## What each member computes on registered labels -/

theorem not_unregistered [DecidableEq V] {g : GraphMatrix V E D} {src dest : V} {i j : Nat}
    (hs : g.vertexToIndex.lookup src = some i) (hd : g.vertexToIndex.lookup dest = some j) :
    ¬ (mapCount g.vertexToIndex src = 0 ∨ mapCount g.vertexToIndex dest = 0) := by
  rw [mapCount_eq_zero_iff, mapCount_eq_zero_iff, hs, hd]
  simp

theorem hasEdge_of_lookup [DecidableEq V] {g : GraphMatrix V E D} {src dest : V} {i j : Nat}
    (hs : g.vertexToIndex.lookup src = some i) (hd : g.vertexToIndex.lookup dest = some j) :
    g.hasEdge src dest = .ok (vectorAt g.adjacencyMatrix (g.getIndex i j)).isSome := by
  simp only [hasEdge, if_neg (not_unregistered hs hd), mapAt_of_lookup hs, mapAt_of_lookup hd]

theorem getEdge_of_some [DecidableEq V] {g : GraphMatrix V E D} {src dest : V} {i j : Nat}
    {e : EdgeInfo E}
    (hs : g.vertexToIndex.lookup src = some i) (hd : g.vertexToIndex.lookup dest = some j)
    (he : vectorAt g.adjacencyMatrix (g.getIndex i j) = some e) :
    g.getEdge src dest = .ok e.value := by
  simp only [getEdge, if_neg (not_unregistered hs hd), mapAt_of_lookup hs, mapAt_of_lookup hd, he]

theorem getEdge_of_none [DecidableEq V] {g : GraphMatrix V E D} {src dest : V} {i j : Nat}
    (hs : g.vertexToIndex.lookup src = some i) (hd : g.vertexToIndex.lookup dest = some j)
    (he : vectorAt g.adjacencyMatrix (g.getIndex i j) = none) :
    g.getEdge src dest =
      .error (.runtime_error "No Edge exists between the given vertices.") := by
  simp only [getEdge, if_neg (not_unregistered hs hd), mapAt_of_lookup hs, mapAt_of_lookup hd, he]

theorem addEdge_of_lookup [DecidableEq V] {g : GraphMatrix V E D} {src dest : V} {i j : Nat}
    (edge : E)
    (hs : g.vertexToIndex.lookup src = some i) (hd : g.vertexToIndex.lookup dest = some j) :
    g.addEdge src dest edge = (.ok (), { g with adjacencyMatrix :=
      (if D = Direction.UndirectedG then
        (g.adjacencyMatrix.set (g.getIndex i j) (some ⟨edge⟩)).set (g.getIndex j i) (some ⟨edge⟩)
      else g.adjacencyMatrix.set (g.getIndex i j) (some ⟨edge⟩)) }) := by
  simp only [addEdge, if_neg (not_unregistered hs hd), mapAt_of_lookup hs, mapAt_of_lookup hd]

theorem removeEdge_of_lookup [DecidableEq V] {g : GraphMatrix V E D} {src dest : V} {i j : Nat}
    (hs : g.vertexToIndex.lookup src = some i) (hd : g.vertexToIndex.lookup dest = some j) :
    g.removeEdge src dest = (.ok (), { g with adjacencyMatrix :=
      (if (!g.isDirected) = true then
        (g.adjacencyMatrix.set (g.getIndex i j) none).set (g.getIndex j i) none
      else g.adjacencyMatrix.set (g.getIndex i j) none) }) := by
  simp only [removeEdge, if_neg (not_unregistered hs hd), mapAt_of_lookup hs, mapAt_of_lookup hd]

theorem operator_call_of_lookup [DecidableEq V] {g : GraphMatrix V E D} {src dest : V}
    {i j : Nat}
    (hs : g.vertexToIndex.lookup src = some i) (hd : g.vertexToIndex.lookup dest = some j) :
    g.operator_call src dest = ((vectorAt g.adjacencyMatrix (g.getIndex i j)).isSome, g) := by
  simp only [operator_call, if_neg (not_unregistered hs hd), mapSubscript_of_lookup hs,
    mapSubscript_of_lookup hd]
  cases h : (vectorAt g.adjacencyMatrix (getIndex { g with vertexToIndex := g.vertexToIndex } i j)).isSome
  · simp
  · simp

/-- The probe never changes the state. -/
theorem operator_call_state [DecidableEq V] (g : GraphMatrix V E D) (src dest : V) :
    (g.operator_call src dest).2 = g := by
  by_cases h : mapCount g.vertexToIndex src = 0 ∨ mapCount g.vertexToIndex dest = 0
  · simp [operator_call, h]
  · rw [not_or] at h
    obtain ⟨i, hi⟩ := (mapCount_ne_zero_iff _ _).1 h.1
    obtain ⟨j, hj⟩ := (mapCount_ne_zero_iff _ _).1 h.2
    rw [operator_call_of_lookup hi hj]

/-- With an unregistered label `addEdge` throws and leaves the state alone. -/
theorem addEdge_of_unregistered [DecidableEq V] {g : GraphMatrix V E D} {src dest : V}
    (edge : E)
    (hc : mapCount g.vertexToIndex src = 0 ∨ mapCount g.vertexToIndex dest = 0) :
    g.addEdge src dest edge =
      (.error (.invalid_argument "One or both vertices do not exist"), g) := by
  simp only [addEdge, if_pos hc]

/-- With an unregistered label `removeEdge` throws and leaves the state alone. -/
theorem removeEdge_of_unregistered [DecidableEq V] {g : GraphMatrix V E D} {src dest : V}
    (hc : mapCount g.vertexToIndex src = 0 ∨ mapCount g.vertexToIndex dest = 0) :
    g.removeEdge src dest =
      (.error (.invalid_argument "One or both vertices do not exist"), g) := by
  simp only [removeEdge, if_pos hc]

/-- A successful `addEdge` had both labels registered. -/
theorem addEdge_ok_lookup [DecidableEq V] {g : GraphMatrix V E D} {src dest : V} {edge : E}
    (h : (g.addEdge src dest edge).1 = .ok ()) :
    ∃ i j, g.vertexToIndex.lookup src = some i ∧ g.vertexToIndex.lookup dest = some j := by
  by_cases hc : mapCount g.vertexToIndex src = 0 ∨ mapCount g.vertexToIndex dest = 0
  · rw [addEdge_of_unregistered edge hc] at h; cases h
  · rw [not_or] at hc
    obtain ⟨i, hi⟩ := (mapCount_ne_zero_iff _ _).1 hc.1
    obtain ⟨j, hj⟩ := (mapCount_ne_zero_iff _ _).1 hc.2
    exact ⟨i, j, hi, hj⟩

/-- A successful `removeEdge` had both labels registered. -/
theorem removeEdge_ok_lookup [DecidableEq V] {g : GraphMatrix V E D} {src dest : V}
    (h : (g.removeEdge src dest).1 = .ok ()) :
    ∃ i j, g.vertexToIndex.lookup src = some i ∧ g.vertexToIndex.lookup dest = some j := by
  by_cases hc : mapCount g.vertexToIndex src = 0 ∨ mapCount g.vertexToIndex dest = 0
  · rw [removeEdge_of_unregistered hc] at h; cases h
  · rw [not_or] at hc
    obtain ⟨i, hi⟩ := (mapCount_ne_zero_iff _ _).1 hc.1
    obtain ⟨j, hj⟩ := (mapCount_ne_zero_iff _ _).1 hc.2
    exact ⟨i, j, hi, hj⟩

theorem Inv.with_matrix [DecidableEq V] {g : GraphMatrix V E D} (h : Inv g)
    (m : List (Option (EdgeInfo E))) (hm : m.length = g.adjacencyMatrix.length) :
    Inv ({ g with adjacencyMatrix := m } : GraphMatrix V E D) :=
  ⟨hm.trans h.matrix_length, h.labels_length, h.map_length, h.keys_nodup, h.inverse, h.directed⟩

theorem Inv.addEdge [DecidableEq V] {g : GraphMatrix V E D} (h : Inv g) (src dest : V)
    (edge : E) : Inv (g.addEdge src dest edge).2 := by
  by_cases hc : mapCount g.vertexToIndex src = 0 ∨ mapCount g.vertexToIndex dest = 0
  · rw [addEdge_of_unregistered edge hc]; exact h
  · rw [not_or] at hc
    obtain ⟨i, hi⟩ := (mapCount_ne_zero_iff _ _).1 hc.1
    obtain ⟨j, hj⟩ := (mapCount_ne_zero_iff _ _).1 hc.2
    rw [addEdge_of_lookup edge hi hj]
    apply h.with_matrix
    split <;> simp

theorem Inv.removeEdge [DecidableEq V] {g : GraphMatrix V E D} (h : Inv g) (src dest : V) :
    Inv (g.removeEdge src dest).2 := by
  by_cases hc : mapCount g.vertexToIndex src = 0 ∨ mapCount g.vertexToIndex dest = 0
  · rw [removeEdge_of_unregistered hc]; exact h
  · rw [not_or] at hc
    obtain ⟨i, hi⟩ := (mapCount_ne_zero_iff _ _).1 hc.1
    obtain ⟨j, hj⟩ := (mapCount_ne_zero_iff _ _).1 hc.2
    rw [removeEdge_of_lookup hi hj]
    apply h.with_matrix
    split <;> simp

/-- Every reachable state satisfies the representation invariant. -/
theorem Reachable.inv [DecidableEq V] {g : GraphMatrix V E D} (h : Reachable g) : Inv g := by
  induction h with
  | empty weighted => exact Inv.empty weighted
  | addVertex vertices _ ih => exact ih.addVertex vertices
  | addEdge src dest edge _ ih => exact ih.addEdge src dest edge
  | removeEdge src dest _ ih => exact ih.removeEdge src dest
  | operator_call src dest _ ih => rw [operator_call_state]; exact ih

/-- The index of a registered label is below `numVertices`. -/
theorem Inv.index_lt [DecidableEq V] {g : GraphMatrix V E D} (h : Inv g) {v : V} {i : Nat}
    (hv : g.vertexToIndex.lookup v = some i) : i < g.numVertices := by
  rcases List.getElem?_eq_some_iff.1 ((h.inverse v i).1 hv) with ⟨hlt, _⟩
  rw [← h.labels_length]; exact hlt

/-- Distinct registered labels have distinct indices. -/
theorem Inv.index_inj [DecidableEq V] {g : GraphMatrix V E D} (h : Inv g) {a b : V} {i : Nat}
    (ha : g.vertexToIndex.lookup a = some i) (hb : g.vertexToIndex.lookup b = some i) :
    a = b := by
  have h1 := (h.inverse a i).1 ha
  have h2 := (h.inverse b i).1 hb
  rw [h1] at h2
  exact Option.some.inj h2

/-- Every slot the members address for registered labels lies inside the matrix. -/
theorem Inv.index_lt_length [DecidableEq V] {g : GraphMatrix V E D} (h : Inv g) {i j : Nat}
    (hi : i < g.numVertices) (hj : j < g.numVertices) :
    g.getIndex i j < g.adjacencyMatrix.length := by
  rw [h.matrix_length]
  exact flat_index_lt hi hj

/-- Two in-range index pairs share a flat position only when they are equal. -/
theorem getIndex_inj (g : GraphMatrix V E D) {i j a b : Nat}
    (hj : j < g.numVertices) (hb : b < g.numVertices)
    (h : g.getIndex i j = g.getIndex a b) : i = a ∧ j = b :=
  flat_index_inj hj hb h

/-! ## Growth after an insertion (C1) -/

/-- C1 (defect in the code): on the graph with labels 1, 2 and the single edge
2 → 1 of payload 5, registering the further label 3 changes the answers for
the prior pair (2, 1): `hasEdge` turns from true to false and `getEdge` from
the payload 5 to the no-such-edge failure, while the never inserted pair
(1, 3) now reports the payload.  Directed first, then undirected. -/
theorem addVertex_changes_prior_edge :
    (∃ g : GraphMatrix Nat Int Direction.DirectedG,
      ((GraphMatrix.empty true).addVertex [1, 2]).addEdge 2 1 5 = (.ok (), g) ∧
      g.hasEdge 2 1 = .ok true ∧ g.getEdge 2 1 = .ok 5 ∧
      (g.addVertex [3]).hasEdge 2 1 = .ok false ∧
      (g.addVertex [3]).getEdge 2 1 =
        .error (.runtime_error "No Edge exists between the given vertices.") ∧
      (g.addVertex [3]).getEdge 1 3 = .ok 5) ∧
    (∃ g : GraphMatrix Nat Int Direction.UndirectedG,
      ((GraphMatrix.empty true).addVertex [1, 2]).addEdge 2 1 5 = (.ok (), g) ∧
      g.hasEdge 2 1 = .ok true ∧ g.getEdge 2 1 = .ok 5 ∧
      (g.addVertex [3]).hasEdge 2 1 = .ok false ∧
      (g.addVertex [3]).getEdge 2 1 =
        .error (.runtime_error "No Edge exists between the given vertices.")) := by
  constructor
  · refine ⟨_, rfl, ?_, ?_, ?_, ?_, ?_⟩ <;> rfl
  · refine ⟨_, rfl, ?_, ?_, ?_, ?_⟩ <;> rfl

/-! ## Reading a state whose matrix was replaced -/

theorem hasEdge_with_matrix [DecidableEq V] (g : GraphMatrix V E D)
    (m : List (Option (EdgeInfo E))) {src dest : V} {i j : Nat}
    (hs : g.vertexToIndex.lookup src = some i) (hd : g.vertexToIndex.lookup dest = some j) :
    ({ g with adjacencyMatrix := m } : GraphMatrix V E D).hasEdge src dest =
      .ok (vectorAt m (g.getIndex i j)).isSome :=
  hasEdge_of_lookup (g := { g with adjacencyMatrix := m }) hs hd

theorem getEdge_with_matrix_some [DecidableEq V] (g : GraphMatrix V E D)
    (m : List (Option (EdgeInfo E))) {src dest : V} {i j : Nat} {e : EdgeInfo E}
    (hs : g.vertexToIndex.lookup src = some i) (hd : g.vertexToIndex.lookup dest = some j)
    (he : vectorAt m (g.getIndex i j) = some e) :
    ({ g with adjacencyMatrix := m } : GraphMatrix V E D).getEdge src dest = .ok e.value :=
  getEdge_of_some (g := { g with adjacencyMatrix := m }) hs hd he

theorem getEdge_with_matrix_none [DecidableEq V] (g : GraphMatrix V E D)
    (m : List (Option (EdgeInfo E))) {src dest : V} {i j : Nat}
    (hs : g.vertexToIndex.lookup src = some i) (hd : g.vertexToIndex.lookup dest = some j)
    (he : vectorAt m (g.getIndex i j) = none) :
    ({ g with adjacencyMatrix := m } : GraphMatrix V E D).getEdge src dest =
      .error (.runtime_error "No Edge exists between the given vertices.") :=
  getEdge_of_none (g := { g with adjacencyMatrix := m }) hs hd he

/-- Two states that agree on a slot give the same `getEdge` answer there. -/
theorem getEdge_with_matrix_congr [DecidableEq V] (g : GraphMatrix V E D)
    (m : List (Option (EdgeInfo E))) {src dest : V} {i j : Nat}
    (hs : g.vertexToIndex.lookup src = some i) (hd : g.vertexToIndex.lookup dest = some j)
    (he : vectorAt m (g.getIndex i j) = vectorAt g.adjacencyMatrix (g.getIndex i j)) :
    ({ g with adjacencyMatrix := m } : GraphMatrix V E D).getEdge src dest =
      g.getEdge src dest := by
  cases h : vectorAt g.adjacencyMatrix (g.getIndex i j) with
  | none =>
    rw [getEdge_of_none hs hd h, getEdge_with_matrix_none g m hs hd (he.trans h)]
  | some e =>
    rw [getEdge_of_some hs hd h, getEdge_with_matrix_some g m hs hd (he.trans h)]

/-! ## Inserting an edge (C2, C3) -/

/-- C2: in a directed graph, in every reachable state and for registered
labels `src`, `dest`, the call `addEdge(src, dest, p)` succeeds; afterwards
`hasEdge(src, dest)` is true and `getEdge(src, dest)` returns `p`, whatever
the slot held before, and when `src ≠ dest` the answer of
`hasEdge(dest, src)` is the one it was before the call. -/
theorem addEdge_directed [DecidableEq V] (g : GraphMatrix V E Direction.DirectedG)
    (hg : Reachable g) (src dest : V) (p : E)
    (hs : mapCount g.vertexToIndex src ≠ 0) (hd : mapCount g.vertexToIndex dest ≠ 0) :
    ∃ g1, g.addEdge src dest p = (.ok (), g1) ∧
      g1.hasEdge src dest = .ok true ∧
      g1.getEdge src dest = .ok p ∧
      (src ≠ dest → g1.hasEdge dest src = g.hasEdge dest src) := by
  have hinv := hg.inv
  obtain ⟨i, hi⟩ := (mapCount_ne_zero_iff _ _).1 hs
  obtain ⟨j, hj⟩ := (mapCount_ne_zero_iff _ _).1 hd
  have hil := hinv.index_lt hi
  have hjl := hinv.index_lt hj
  have hk := hinv.index_lt_length hil hjl
  refine ⟨_, addEdge_of_lookup p hi hj, ?_, ?_, ?_⟩
  · rw [if_neg (by decide), hasEdge_with_matrix g _ hi hj, vectorAt_set_self _ _ hk]
    rfl
  · rw [if_neg (by decide)]
    exact getEdge_with_matrix_some g _ hi hj (vectorAt_set_self _ _ hk)
  · intro hne
    have hne2 : g.getIndex i j ≠ g.getIndex j i := by
      intro he
      have hij := (g.getIndex_inj hjl hil he).1
      subst hij
      exact hne (hinv.index_inj hi hj)
    rw [if_neg (by decide), hasEdge_with_matrix g _ hj hi, vectorAt_set_ne _ _ hne2,
      hasEdge_of_lookup hj hi]

/-- C3: in an undirected graph, in every reachable state and for registered
labels `src`, `dest`, the call `addEdge(src, dest, p)` succeeds; afterwards
`hasEdge` is true and `getEdge` returns `p` in both directions. -/
theorem addEdge_undirected [DecidableEq V] (g : GraphMatrix V E Direction.UndirectedG)
    (hg : Reachable g) (src dest : V) (p : E)
    (hs : mapCount g.vertexToIndex src ≠ 0) (hd : mapCount g.vertexToIndex dest ≠ 0) :
    ∃ g1, g.addEdge src dest p = (.ok (), g1) ∧
      g1.hasEdge src dest = .ok true ∧ g1.hasEdge dest src = .ok true ∧
      g1.getEdge src dest = .ok p ∧ g1.getEdge dest src = .ok p := by
  have hinv := hg.inv
  obtain ⟨i, hi⟩ := (mapCount_ne_zero_iff _ _).1 hs
  obtain ⟨j, hj⟩ := (mapCount_ne_zero_iff _ _).1 hd
  have hil := hinv.index_lt hi
  have hjl := hinv.index_lt hj
  have hk := hinv.index_lt_length hil hjl
  have hk2 := hinv.index_lt_length hjl hil
  have hfwd : vectorAt ((g.adjacencyMatrix.set (g.getIndex i j) (some ⟨p⟩)).set
      (g.getIndex j i) (some ⟨p⟩)) (g.getIndex i j) = some ⟨p⟩ := by
    by_cases he : g.getIndex j i = g.getIndex i j
    · rw [he]; exact vectorAt_set_self _ _ (by simpa using hk)
    · rw [vectorAt_set_ne _ _ he]; exact vectorAt_set_self _ _ hk
  have hbwd : vectorAt ((g.adjacencyMatrix.set (g.getIndex i j) (some ⟨p⟩)).set
      (g.getIndex j i) (some ⟨p⟩)) (g.getIndex j i) = some ⟨p⟩ :=
    vectorAt_set_self _ _ (by simpa using hk2)
  refine ⟨_, addEdge_of_lookup p hi hj, ?_, ?_, ?_, ?_⟩
  · rw [if_pos rfl, hasEdge_with_matrix g _ hi hj, hfwd]; rfl
  · rw [if_pos rfl, hasEdge_with_matrix g _ hj hi, hbwd]; rfl
  · rw [if_pos rfl]; exact getEdge_with_matrix_some g _ hi hj hfwd
  · rw [if_pos rfl]; exact getEdge_with_matrix_some g _ hj hi hbwd

/-! ## The example states are reachable -/

theorem threeVertices_reachable (D : Direction) : Reachable (threeVertices D) :=
  Reachable.addVertex [1, 2, 3] (Reachable.empty true)

theorem exampleDirected_reachable : Reachable exampleDirected :=
  Reachable.addEdge 2 1 7 (Reachable.addEdge 1 2 5 (threeVertices_reachable _))

theorem exampleUndirected_reachable : Reachable exampleUndirected :=
  Reachable.addEdge 1 2 5 (threeVertices_reachable _)

/-- C2 at a concrete input: on `exampleDirected` the call `addEdge(2, 1, 9)`
overwrites the payload 7 and leaves the reverse edge 1 → 2 as it was. -/
theorem addEdge_directed_witness :
    (Reachable exampleDirected ∧ mapCount exampleDirected.vertexToIndex 2 ≠ 0 ∧
      mapCount exampleDirected.vertexToIndex 1 ≠ 0) ∧
    ∃ g1, exampleDirected.addEdge 2 1 9 = (.ok (), g1) ∧
      g1.hasEdge 2 1 = .ok true ∧
      g1.getEdge 2 1 = .ok 9 ∧
      ((2 : Nat) ≠ 1 → g1.hasEdge 1 2 = exampleDirected.hasEdge 1 2) :=
  ⟨⟨exampleDirected_reachable, by decide, by decide⟩,
    addEdge_directed exampleDirected exampleDirected_reachable 2 1 9 (by decide) (by decide)⟩

/-- C3 at a concrete input: on `exampleUndirected` the call `addEdge(1, 3, 9)`. -/
theorem addEdge_undirected_witness :
    (Reachable exampleUndirected ∧ mapCount exampleUndirected.vertexToIndex 1 ≠ 0 ∧
      mapCount exampleUndirected.vertexToIndex 3 ≠ 0) ∧
    ∃ g1, exampleUndirected.addEdge 1 3 9 = (.ok (), g1) ∧
      g1.hasEdge 1 3 = .ok true ∧ g1.hasEdge 3 1 = .ok true ∧
      g1.getEdge 1 3 = .ok 9 ∧ g1.getEdge 3 1 = .ok 9 :=
  ⟨⟨exampleUndirected_reachable, by decide, by decide⟩,
    addEdge_undirected exampleUndirected exampleUndirected_reachable 1 3 9
      (by decide) (by decide)⟩

/-! ## Removing an edge (C4) -/

/-- C4: in every reachable state and for registered labels `src`, `dest`, the
call `removeEdge(src, dest)` succeeds; afterwards `hasEdge(src, dest)` is
false, and unless the graph is directed `hasEdge(dest, src)` is false too.
Every other pair of registered labels `(a, b)` (different from `(src, dest)`,
and unless the graph is directed also from `(dest, src)`) keeps its `hasEdge`
and `getEdge` answers; in a directed graph that covers the reverse pair. -/
theorem removeEdge_frame [DecidableEq V] (g : GraphMatrix V E D)
    (hg : Reachable g) (src dest : V)
    (hs : mapCount g.vertexToIndex src ≠ 0) (hd : mapCount g.vertexToIndex dest ≠ 0) :
    ∃ g1, g.removeEdge src dest = (.ok (), g1) ∧
      g1.hasEdge src dest = .ok false ∧
      (D ≠ Direction.DirectedG → g1.hasEdge dest src = .ok false) ∧
      ∀ a b : V, mapCount g.vertexToIndex a ≠ 0 → mapCount g.vertexToIndex b ≠ 0 →
        (a, b) ≠ (src, dest) → (D ≠ Direction.DirectedG → (a, b) ≠ (dest, src)) →
        g1.hasEdge a b = g.hasEdge a b ∧ g1.getEdge a b = g.getEdge a b := by
  have hinv := hg.inv
  obtain ⟨i, hi⟩ := (mapCount_ne_zero_iff _ _).1 hs
  obtain ⟨j, hj⟩ := (mapCount_ne_zero_iff _ _).1 hd
  have hil := hinv.index_lt hi
  have hjl := hinv.index_lt hj
  have hk := hinv.index_lt_length hil hjl
  have hk2 := hinv.index_lt_length hjl hil
  -- a pair of registered labels other than `(src, dest)` lives in another slot
  have hother : ∀ {a b : V} {x y : Nat}, g.vertexToIndex.lookup a = some x →
      g.vertexToIndex.lookup b = some y → ∀ {s d : V} {u w : Nat},
      g.vertexToIndex.lookup s = some u → g.vertexToIndex.lookup d = some w →
      (a, b) ≠ (s, d) → g.getIndex u w ≠ g.getIndex x y := by
    intro a b x y ha hb s d u w hu hw hne he
    obtain ⟨h1, h2⟩ := g.getIndex_inj (hinv.index_lt hw) (hinv.index_lt hb) he
    subst h1; subst h2
    exact hne (by rw [hinv.index_inj ha hu, hinv.index_inj hb hw])
  refine ⟨_, removeEdge_of_lookup hi hj, ?_, ?_, ?_⟩
  · rw [hasEdge_with_matrix g _ hi hj]
    split
    · by_cases he : g.getIndex j i = g.getIndex i j
      · rw [he, vectorAt_set_self _ _ (by simpa using hk)]; rfl
      · rw [vectorAt_set_ne _ _ he, vectorAt_set_self _ _ hk]; rfl
    · rw [vectorAt_set_self _ _ hk]; rfl
  · intro hD
    have hdir : (!g.isDirected) = true := by
      rw [hinv.directed]; simpa using hD
    rw [hasEdge_with_matrix g _ hj hi, if_pos hdir,
      vectorAt_set_self _ _ (by simpa using hk2)]
    rfl
  · intro a b ha hb hne hne2
    obtain ⟨x, hx⟩ := (mapCount_ne_zero_iff _ _).1 ha
    obtain ⟨y, hy⟩ := (mapCount_ne_zero_iff _ _).1 hb
    have h1 : g.getIndex i j ≠ g.getIndex x y := hother hx hy hi hj hne
    have hslot : vectorAt
        (if (!g.isDirected) = true then
          (g.adjacencyMatrix.set (g.getIndex i j) none).set (g.getIndex j i) none
        else g.adjacencyMatrix.set (g.getIndex i j) none) (g.getIndex x y) =
        vectorAt g.adjacencyMatrix (g.getIndex x y) := by
      split
      · rename_i hdir
        have hD : D ≠ Direction.DirectedG := by
          rw [hinv.directed] at hdir; simpa using hdir
        have h2 : g.getIndex j i ≠ g.getIndex x y := hother hx hy hj hi (hne2 hD)
        rw [vectorAt_set_ne _ _ h2, vectorAt_set_ne _ _ h1]
      · rw [vectorAt_set_ne _ _ h1]
    constructor
    · rw [hasEdge_with_matrix g _ hx hy, hslot, hasEdge_of_lookup hx hy]
    · exact getEdge_with_matrix_congr g _ hx hy hslot

/-- C4 at a concrete input: on `exampleDirected` the call `removeEdge(1, 2)`
clears the edge 1 → 2 and keeps every other pair, the reverse edge 2 → 1
included. -/
theorem removeEdge_frame_witness :
    (Reachable exampleDirected ∧ mapCount exampleDirected.vertexToIndex 1 ≠ 0 ∧
      mapCount exampleDirected.vertexToIndex 2 ≠ 0) ∧
    ∃ g1, exampleDirected.removeEdge 1 2 = (.ok (), g1) ∧
      g1.hasEdge 1 2 = .ok false ∧
      (Direction.DirectedG ≠ Direction.DirectedG → g1.hasEdge 2 1 = .ok false) ∧
      ∀ a b : Nat, mapCount exampleDirected.vertexToIndex a ≠ 0 →
        mapCount exampleDirected.vertexToIndex b ≠ 0 →
        (a, b) ≠ (1, 2) → (Direction.DirectedG ≠ Direction.DirectedG → (a, b) ≠ (2, 1)) →
        g1.hasEdge a b = exampleDirected.hasEdge a b ∧
        g1.getEdge a b = exampleDirected.getEdge a b :=
  ⟨⟨exampleDirected_reachable, by decide, by decide⟩,
    removeEdge_frame exampleDirected exampleDirected_reachable 1 2 (by decide) (by decide)⟩

/-! ## Failure conditions (C5, C6) and the callable probe (C8) -/

theorem getNeighbors_of_lookup [LinearOrder V] [Inhabited V] {g : GraphMatrix V E D} {v : V}
    {i : Nat} (hv : g.vertexToIndex.lookup v = some i) :
    g.getNeighbors v = .ok ((List.range g.numVertices).foldl (neighborsStep g i) []) := by
  have hc : ¬ mapCount g.vertexToIndex v = 0 := by
    rw [mapCount_eq_zero_iff, hv]; simp
  simp only [getNeighbors, if_neg hc, mapAt_of_lookup hv]

/-- With both labels registered `getEdge` either returns a payload or raises
the no-such-edge error. -/
theorem getEdge_registered_cases [DecidableEq V] {g : GraphMatrix V E D} {src dest : V}
    {i j : Nat}
    (hs : g.vertexToIndex.lookup src = some i) (hd : g.vertexToIndex.lookup dest = some j) :
    (∃ e, vectorAt g.adjacencyMatrix (g.getIndex i j) = some e ∧
        g.hasEdge src dest = .ok true ∧ g.getEdge src dest = .ok e.value) ∨
    (vectorAt g.adjacencyMatrix (g.getIndex i j) = none ∧
        g.hasEdge src dest = .ok false ∧
        g.getEdge src dest =
          .error (.runtime_error "No Edge exists between the given vertices.")) := by
  cases h : vectorAt g.adjacencyMatrix (g.getIndex i j) with
  | none =>
    right
    exact ⟨rfl, by rw [hasEdge_of_lookup hs hd, h]; rfl, getEdge_of_none hs hd h⟩
  | some e =>
    left
    exact ⟨e, rfl, by rw [hasEdge_of_lookup hs hd, h]; rfl, getEdge_of_some hs hd h⟩

/-- C5: in every state, each of `addEdge`, `removeEdge`, `hasEdge` and
`getEdge` raises invalid-argument exactly when one of the two labels is not
registered, `getNeighbors` exactly when its label is not registered, and
`removeEdge` on registered labels succeeds. -/
theorem invalid_argument_iff [LinearOrder V] [Inhabited V] (g : GraphMatrix V E D)
    (src dest v : V) (p : E) :
    ((∃ w, (g.addEdge src dest p).1 = .error (.invalid_argument w)) ↔
      (mapCount g.vertexToIndex src = 0 ∨ mapCount g.vertexToIndex dest = 0)) ∧
    ((∃ w, (g.removeEdge src dest).1 = .error (.invalid_argument w)) ↔
      (mapCount g.vertexToIndex src = 0 ∨ mapCount g.vertexToIndex dest = 0)) ∧
    ((∃ w, g.hasEdge src dest = .error (.invalid_argument w)) ↔
      (mapCount g.vertexToIndex src = 0 ∨ mapCount g.vertexToIndex dest = 0)) ∧
    ((∃ w, g.getEdge src dest = .error (.invalid_argument w)) ↔
      (mapCount g.vertexToIndex src = 0 ∨ mapCount g.vertexToIndex dest = 0)) ∧
    ((∃ w, g.getNeighbors v = .error (.invalid_argument w)) ↔
      mapCount g.vertexToIndex v = 0) ∧
    (mapCount g.vertexToIndex src ≠ 0 → mapCount g.vertexToIndex dest ≠ 0 →
      ∃ g1, g.removeEdge src dest = (.ok (), g1)) := by
  have key : ¬ (mapCount g.vertexToIndex src = 0 ∨ mapCount g.vertexToIndex dest = 0) →
      ∃ i j, g.vertexToIndex.lookup src = some i ∧ g.vertexToIndex.lookup dest = some j := by
    intro hc
    rw [not_or] at hc
    obtain ⟨i, hi⟩ := (mapCount_ne_zero_iff _ _).1 hc.1
    obtain ⟨j, hj⟩ := (mapCount_ne_zero_iff _ _).1 hc.2
    exact ⟨i, j, hi, hj⟩
  refine ⟨⟨?_, ?_⟩, ⟨?_, ?_⟩, ⟨?_, ?_⟩, ⟨?_, ?_⟩, ⟨?_, ?_⟩, ?_⟩
  · rintro ⟨w, hw⟩
    by_contra hc
    obtain ⟨i, j, hi, hj⟩ := key hc
    rw [addEdge_of_lookup p hi hj] at hw
    cases hw
  · intro hc
    exact ⟨_, by rw [addEdge_of_unregistered p hc]⟩
  · rintro ⟨w, hw⟩
    by_contra hc
    obtain ⟨i, j, hi, hj⟩ := key hc
    rw [removeEdge_of_lookup hi hj] at hw
    cases hw
  · intro hc
    exact ⟨_, by rw [removeEdge_of_unregistered hc]⟩
  · rintro ⟨w, hw⟩
    by_contra hc
    obtain ⟨i, j, hi, hj⟩ := key hc
    rw [hasEdge_of_lookup hi hj] at hw
    cases hw
  · intro hc
    exact ⟨_, by simp only [hasEdge, if_pos hc]; rfl⟩
  · rintro ⟨w, hw⟩
    by_contra hc
    obtain ⟨i, j, hi, hj⟩ := key hc
    rcases getEdge_registered_cases hi hj with ⟨e, _, _, he⟩ | ⟨_, _, he⟩
    · rw [he] at hw; cases hw
    · rw [he] at hw; cases hw
  · intro hc
    exact ⟨_, by simp only [getEdge, if_pos hc]; rfl⟩
  · rintro ⟨w, hw⟩
    by_contra hc
    obtain ⟨i, hi⟩ := (mapCount_ne_zero_iff _ _).1 hc
    rw [getNeighbors_of_lookup hi] at hw
    cases hw
  · intro hc
    exact ⟨_, by simp only [getNeighbors, if_pos hc]; rfl⟩
  · intro hs hd
    obtain ⟨i, hi⟩ := (mapCount_ne_zero_iff _ _).1 hs
    obtain ⟨j, hj⟩ := (mapCount_ne_zero_iff _ _).1 hd
    exact ⟨_, removeEdge_of_lookup hi hj⟩

/-- In a state satisfying the invariant, `getEdge` after a successful
`addEdge` on the same pair returns the inserted payload. -/
theorem getEdge_after_addEdge [DecidableEq V] {g g1 : GraphMatrix V E D} (hinv : Inv g)
    {src dest : V} {p : E} (h : g.addEdge src dest p = (.ok (), g1)) :
    g1.getEdge src dest = .ok p := by
  obtain ⟨i, j, hi, hj⟩ := addEdge_ok_lookup (congrArg Prod.fst h)
  have hk := hinv.index_lt_length (hinv.index_lt hi) (hinv.index_lt hj)
  rw [addEdge_of_lookup p hi hj] at h
  cases h
  apply getEdge_with_matrix_some g _ hi hj
  split
  · by_cases he : g.getIndex j i = g.getIndex i j
    · rw [he]; exact vectorAt_set_self _ _ (by simpa using hk)
    · rw [vectorAt_set_ne _ _ he]; exact vectorAt_set_self _ _ hk
  · exact vectorAt_set_self _ _ hk

/-- C6: for registered labels, `getEdge` raises the no-such-edge error exactly
when `hasEdge` is false; when `hasEdge` is true it returns the payload held by
the slot of the pair, which in a reachable state is the payload of the last
`addEdge` on the pair; and no other member raises the no-such-edge error. -/
theorem no_such_edge_iff [LinearOrder V] [Inhabited V] (g : GraphMatrix V E D)
    (src dest : V)
    (hs : mapCount g.vertexToIndex src ≠ 0) (hd : mapCount g.vertexToIndex dest ≠ 0) :
    ((∃ w, g.getEdge src dest = .error (.runtime_error w)) ↔ g.hasEdge src dest = .ok false) ∧
    (g.hasEdge src dest = .ok true →
      ∃ i j e, mapAt g.vertexToIndex src = .ok i ∧ mapAt g.vertexToIndex dest = .ok j ∧
        vectorAt g.adjacencyMatrix (g.getIndex i j) = some e ∧
        g.getEdge src dest = .ok e.value) ∧
    (Reachable g → ∀ (p : E) (g1 : GraphMatrix V E D),
      g.addEdge src dest p = (.ok (), g1) →
        g1.hasEdge src dest = .ok true ∧ g1.getEdge src dest = .ok p) ∧
    (∀ (a b : V) (p : E) (w : String),
      (g.addEdge a b p).1 ≠ .error (.runtime_error w) ∧
      (g.removeEdge a b).1 ≠ .error (.runtime_error w) ∧
      g.hasEdge a b ≠ .error (.runtime_error w) ∧
      g.getNeighbors a ≠ .error (.runtime_error w)) := by
  obtain ⟨i, hi⟩ := (mapCount_ne_zero_iff _ _).1 hs
  obtain ⟨j, hj⟩ := (mapCount_ne_zero_iff _ _).1 hd
  refine ⟨⟨?_, ?_⟩, ?_, ?_, ?_⟩
  · rintro ⟨w, hw⟩
    rcases getEdge_registered_cases hi hj with ⟨e, _, _, he⟩ | ⟨_, hh, _⟩
    · rw [he] at hw; cases hw
    · exact hh
  · intro hh
    rcases getEdge_registered_cases hi hj with ⟨e, _, ht, _⟩ | ⟨_, _, he⟩
    · rw [ht] at hh; cases hh
    · exact ⟨_, he⟩
  · intro hh
    rcases getEdge_registered_cases hi hj with ⟨e, hslot, _, he⟩ | ⟨_, hf, _⟩
    · exact ⟨i, j, e, mapAt_of_lookup hi, mapAt_of_lookup hj, hslot, he⟩
    · rw [hf] at hh; cases hh
  · intro hr p g1 hadd
    have hget := getEdge_after_addEdge hr.inv hadd
    refine ⟨?_, hget⟩
    have hi1 : g1.vertexToIndex.lookup src = some i := by
      rw [addEdge_of_lookup p hi hj] at hadd; cases hadd; exact hi
    have hj1 : g1.vertexToIndex.lookup dest = some j := by
      rw [addEdge_of_lookup p hi hj] at hadd; cases hadd; exact hj
    rcases getEdge_registered_cases hi1 hj1 with ⟨e, _, ht, _⟩ | ⟨_, _, he⟩
    · exact ht
    · rw [he] at hget; cases hget
  · intro a b p w
    refine ⟨?_, ?_, ?_, ?_⟩
    · intro h
      by_cases hc : mapCount g.vertexToIndex a = 0 ∨ mapCount g.vertexToIndex b = 0
      · rw [addEdge_of_unregistered p hc] at h; cases h
      · rw [not_or] at hc
        obtain ⟨x, hx⟩ := (mapCount_ne_zero_iff _ _).1 hc.1
        obtain ⟨y, hy⟩ := (mapCount_ne_zero_iff _ _).1 hc.2
        rw [addEdge_of_lookup p hx hy] at h; cases h
    · intro h
      by_cases hc : mapCount g.vertexToIndex a = 0 ∨ mapCount g.vertexToIndex b = 0
      · rw [removeEdge_of_unregistered hc] at h; cases h
      · rw [not_or] at hc
        obtain ⟨x, hx⟩ := (mapCount_ne_zero_iff _ _).1 hc.1
        obtain ⟨y, hy⟩ := (mapCount_ne_zero_iff _ _).1 hc.2
        rw [removeEdge_of_lookup hx hy] at h; cases h
    · intro h
      by_cases hc : mapCount g.vertexToIndex a = 0 ∨ mapCount g.vertexToIndex b = 0
      · simp only [hasEdge, if_pos hc] at h; cases h
      · rw [not_or] at hc
        obtain ⟨x, hx⟩ := (mapCount_ne_zero_iff _ _).1 hc.1
        obtain ⟨y, hy⟩ := (mapCount_ne_zero_iff _ _).1 hc.2
        rw [hasEdge_of_lookup hx hy] at h; cases h
    · intro h
      by_cases hc : mapCount g.vertexToIndex a = 0
      · simp only [getNeighbors, if_pos hc] at h; cases h
      · obtain ⟨x, hx⟩ := (mapCount_ne_zero_iff _ _).1 hc
        rw [getNeighbors_of_lookup hx] at h; cases h

/-- C6 at a concrete input: the pair (1, 2) of `exampleDirected`. -/
theorem no_such_edge_iff_witness :
    (mapCount exampleDirected.vertexToIndex 1 ≠ 0 ∧
      mapCount exampleDirected.vertexToIndex 2 ≠ 0) ∧
    ((∃ w, exampleDirected.getEdge 1 2 = .error (.runtime_error w)) ↔
      exampleDirected.hasEdge 1 2 = .ok false) ∧
    (exampleDirected.hasEdge 1 2 = .ok true →
      ∃ i j e, mapAt exampleDirected.vertexToIndex 1 = .ok i ∧
        mapAt exampleDirected.vertexToIndex 2 = .ok j ∧
        vectorAt exampleDirected.adjacencyMatrix (exampleDirected.getIndex i j) = some e ∧
        exampleDirected.getEdge 1 2 = .ok e.value) ∧
    (Reachable exampleDirected → ∀ (p : Int) (g1 : GraphMatrix Nat Int Direction.DirectedG),
      exampleDirected.addEdge 1 2 p = (.ok (), g1) →
        g1.hasEdge 1 2 = .ok true ∧ g1.getEdge 1 2 = .ok p) ∧
    (∀ (a b : Nat) (p : Int) (w : String),
      (exampleDirected.addEdge a b p).1 ≠ .error (.runtime_error w) ∧
      (exampleDirected.removeEdge a b).1 ≠ .error (.runtime_error w) ∧
      exampleDirected.hasEdge a b ≠ .error (.runtime_error w) ∧
      exampleDirected.getNeighbors a ≠ .error (.runtime_error w)) :=
  ⟨⟨by decide, by decide⟩, no_such_edge_iff exampleDirected 1 2 (by decide) (by decide)⟩

/-- C8: in every state the callable probe returns the state it was given;
it answers false when one of the labels is not registered, and with both
registered it answers what `hasEdge` answers.  In a reachable state the slot
it reads lies inside the matrix. -/
theorem operator_call_spec [DecidableEq V] (g : GraphMatrix V E D) (src dest : V) :
    (g.operator_call src dest).2 = g ∧
    ((mapCount g.vertexToIndex src = 0 ∨ mapCount g.vertexToIndex dest = 0) →
      (g.operator_call src dest).1 = false) ∧
    (mapCount g.vertexToIndex src ≠ 0 → mapCount g.vertexToIndex dest ≠ 0 →
      g.hasEdge src dest = .ok (g.operator_call src dest).1) ∧
    (Reachable g → ∀ i j, mapAt g.vertexToIndex src = .ok i →
      mapAt g.vertexToIndex dest = .ok j → g.getIndex i j < g.adjacencyMatrix.length) := by
  refine ⟨operator_call_state g src dest, ?_, ?_, ?_⟩
  · intro hc
    simp only [operator_call, if_pos hc]
  · intro hs hd
    obtain ⟨i, hi⟩ := (mapCount_ne_zero_iff _ _).1 hs
    obtain ⟨j, hj⟩ := (mapCount_ne_zero_iff _ _).1 hd
    rw [operator_call_of_lookup hi hj, hasEdge_of_lookup hi hj]
  · intro hr i j hi hj
    have hinv := hr.inv
    have hi2 : g.vertexToIndex.lookup src = some i := by
      cases h : g.vertexToIndex.lookup src with
      | none => simp [mapAt, h] at hi
      | some x => simp [mapAt, h] at hi; rw [hi]
    have hj2 : g.vertexToIndex.lookup dest = some j := by
      cases h : g.vertexToIndex.lookup dest with
      | none => simp [mapAt, h] at hj
      | some x => simp [mapAt, h] at hj; rw [hj]
    exact hinv.index_lt_length (hinv.index_lt hi2) (hinv.index_lt hj2)

/-! ## Registration order (C7) -/

theorem mem_firstOccurrences [DecidableEq V] (l : List V) (y : V) :
    y ∈ firstOccurrences l ↔ y ∈ l := by
  induction l with
  | nil => simp [firstOccurrences]
  | cons x xs ih =>
    simp only [firstOccurrences, List.mem_cons, List.mem_filter, ih, decide_eq_true_eq]
    constructor
    · rintro (h | ⟨h, _⟩)
      · exact Or.inl h
      · exact Or.inr h
    · rintro (h | h)
      · exact Or.inl h
      · by_cases hx : y = x
        · exact Or.inl hx
        · exact Or.inr ⟨h, hx⟩

theorem nodup_firstOccurrences [DecidableEq V] (l : List V) : (firstOccurrences l).Nodup := by
  induction l with
  | nil => simp [firstOccurrences]
  | cons x xs ih =>
    simp only [firstOccurrences, List.nodup_cons, List.mem_filter, decide_eq_true_eq]
    exact ⟨fun h => h.2 rfl, ih.filter _⟩

/-- Under the map invariant a label is registered exactly when it is listed. -/
theorem MapInv.registered_iff_mem [DecidableEq V] {g : GraphMatrix V E D} (h : MapInv g)
    (v : V) : mapCount g.vertexToIndex v ≠ 0 ↔ v ∈ g.indexToVertex := by
  rw [mapCount_ne_zero_iff, List.mem_iff_getElem?]
  constructor
  · rintro ⟨i, hi⟩; exact ⟨i, (h.inverse v i).1 hi⟩
  · rintro ⟨i, hi⟩; exact ⟨i, (h.inverse v i).2 hi⟩

/-- The labels after a run of `add_single_vertex`: the old ones, then the new
ones in order of first occurrence. -/
theorem foldl_add_single_vertex_labels [DecidableEq V] (l : List V) :
    ∀ {g : GraphMatrix V E D}, MapInv g →
      (l.foldl GraphMatrix.add_single_vertex g).indexToVertex =
        g.indexToVertex ++
          (firstOccurrences l).filter (fun y => decide (y ∉ g.indexToVertex)) := by
  induction l with
  | nil => intro g _; simp [firstOccurrences]
  | cons x xs ih =>
    intro g hg
    rw [List.foldl_cons, ih (hg.add_single_vertex x)]
    by_cases hx : x ∈ g.indexToVertex
    · have hreg : mapCount g.vertexToIndex x ≠ 0 := (hg.registered_iff_mem x).2 hx
      have hsame : g.add_single_vertex x = g := by
        simp only [GraphMatrix.add_single_vertex, if_pos hreg]
      rw [hsame]
      congr 1
      simp only [firstOccurrences, List.filter_cons, hx, not_true_eq_false, decide_False,
        List.filter_filter]
      apply List.filter_congr
      intro y _
      by_cases hy : y ∈ g.indexToVertex
      · simp [hy]
      · have : y ≠ x := fun he => hy (he ▸ hx)
        simp [hy, this]
    · have hreg : ¬ mapCount g.vertexToIndex x ≠ 0 := fun hc =>
        hx ((hg.registered_iff_mem x).1 hc)
      have hlab : (g.add_single_vertex x).indexToVertex = g.indexToVertex ++ [x] := by
        simp only [GraphMatrix.add_single_vertex, if_neg hreg]
      rw [hlab, List.append_assoc]
      congr 1
      simp only [firstOccurrences, List.filter_cons, hx, not_false_eq_true, decide_True,
        List.filter_filter, List.singleton_append, if_true]
      congr 1
      apply List.filter_congr
      intro y _
      by_cases hy : y ∈ g.indexToVertex
      · simp [hy]
      · by_cases hyx : y = x
        · simp [hyx]
        · simp [hy, hyx]

/-- The vertex bookkeeping after `add_single_vertex` depends only on the
vertex bookkeeping before it. -/
theorem add_single_vertex_bookkeeping [DecidableEq V] {g h : GraphMatrix V E D} (v : V)
    (e1 : g.vertexToIndex = h.vertexToIndex) (e2 : g.indexToVertex = h.indexToVertex)
    (e3 : g.numVertices = h.numVertices) :
    (g.add_single_vertex v).vertexToIndex = (h.add_single_vertex v).vertexToIndex ∧
    (g.add_single_vertex v).indexToVertex = (h.add_single_vertex v).indexToVertex ∧
    (g.add_single_vertex v).numVertices = (h.add_single_vertex v).numVertices := by
  unfold GraphMatrix.add_single_vertex
  rw [e1]
  by_cases hc : mapCount h.vertexToIndex v ≠ 0
  · simp only [if_pos hc]; exact ⟨e1, e2, e3⟩
  · simp only [if_neg hc, e1, e2, e3]; exact ⟨trivial, trivial, trivial⟩

theorem foldl_add_single_vertex_bookkeeping [DecidableEq V] (l : List V) :
    ∀ {g h : GraphMatrix V E D}, g.vertexToIndex = h.vertexToIndex →
      g.indexToVertex = h.indexToVertex → g.numVertices = h.numVertices →
      (l.foldl GraphMatrix.add_single_vertex g).vertexToIndex =
        (l.foldl GraphMatrix.add_single_vertex h).vertexToIndex ∧
      (l.foldl GraphMatrix.add_single_vertex g).indexToVertex =
        (l.foldl GraphMatrix.add_single_vertex h).indexToVertex ∧
      (l.foldl GraphMatrix.add_single_vertex g).numVertices =
        (l.foldl GraphMatrix.add_single_vertex h).numVertices := by
  induction l with
  | nil => intro g h e1 e2 e3; exact ⟨e1, e2, e3⟩
  | cons x xs ih =>
    intro g h e1 e2 e3
    obtain ⟨f1, f2, f3⟩ := add_single_vertex_bookkeeping x e1 e2 e3
    exact ih f1 f2 f3

/-- A sequence of `addVertex` calls registers what one run of
`add_single_vertex` over the flattened arguments registers. -/
theorem foldl_addVertex_bookkeeping [DecidableEq V] (calls : List (List V)) :
    ∀ (g : GraphMatrix V E D),
      (calls.foldl GraphMatrix.addVertex g).vertexToIndex =
        (calls.flatten.foldl GraphMatrix.add_single_vertex g).vertexToIndex ∧
      (calls.foldl GraphMatrix.addVertex g).indexToVertex =
        (calls.flatten.foldl GraphMatrix.add_single_vertex g).indexToVertex ∧
      (calls.foldl GraphMatrix.addVertex g).numVertices =
        (calls.flatten.foldl GraphMatrix.add_single_vertex g).numVertices := by
  induction calls with
  | nil => intro g; exact ⟨rfl, rfl, rfl⟩
  | cons c cs ih =>
    intro g
    rw [List.foldl_cons, List.flatten_cons, List.foldl_append]
    obtain ⟨f1, f2, f3⟩ := ih (g.addVertex c)
    obtain ⟨k1, k2, k3⟩ := foldl_add_single_vertex_bookkeeping cs.flatten
      (g := g.addVertex c) (h := c.foldl GraphMatrix.add_single_vertex g) rfl rfl rfl
    exact ⟨f1.trans k1, f2.trans k2, f3.trans k3⟩

/-- The labels of a fresh graph after a sequence of `addVertex` calls. -/
theorem getVertices_after_calls [DecidableEq V] (weighted : Bool) (calls : List (List V)) :
    (calls.foldl GraphMatrix.addVertex
        (GraphMatrix.empty weighted : GraphMatrix V E D)).getVertices =
      firstOccurrences calls.flatten := by
  unfold GraphMatrix.getVertices
  rw [(foldl_addVertex_bookkeeping calls _).2.1,
    foldl_add_single_vertex_labels calls.flatten (Inv.empty weighted).toMapInv]
  simp [GraphMatrix.empty]

/-- C7: after any sequence of `addVertex` calls on a fresh graph,
`getVertices()` is the list of the labels of the flattened argument sequence in
order of first occurrence; it has no duplicate and holds exactly the labels
that occur in some call. -/
theorem getVertices_registration_order [DecidableEq V] (weighted : Bool)
    (calls : List (List V)) :
    (calls.foldl GraphMatrix.addVertex
        (GraphMatrix.empty weighted : GraphMatrix V E D)).getVertices =
      firstOccurrences calls.flatten ∧
    (calls.foldl GraphMatrix.addVertex
        (GraphMatrix.empty weighted : GraphMatrix V E D)).getVertices.Nodup ∧
    ∀ v, v ∈ (calls.foldl GraphMatrix.addVertex
        (GraphMatrix.empty weighted : GraphMatrix V E D)).getVertices ↔
      ∃ c ∈ calls, v ∈ c := by
  rw [getVertices_after_calls]
  refine ⟨rfl, nodup_firstOccurrences _, ?_⟩
  intro v
  rw [mem_firstOccurrences, List.mem_flatten]

/-! ## Enumerating the edges (C9) -/

/-- The flat positions below `n * m`, row by row. -/
theorem range_mul_eq_flatMap (n m : Nat) :
    List.range (n * m) =
      (List.range n).flatMap fun i => (List.range m).map fun j => i * m + j := by
  induction n with
  | zero => simp
  | succ n ih =>
    rw [Nat.succ_mul, List.range_add, ih, List.range_succ, List.flatMap_append]
    simp

theorem length_filterMap_eq_countP {α β : Type} (f : α → Option β) (l : List α) :
    (l.filterMap f).length = l.countP (fun a => (f a).isSome) := by
  induction l with
  | nil => rfl
  | cons a l ih =>
    cases h : f a with
    | none => simp [List.filterMap_cons, h, ih]
    | some b => simp [List.filterMap_cons, h, ih]

/-- Counting the present entries of a vector through its positions. -/
theorem countP_positions (m : List (Option (EdgeInfo E))) :
    (List.range m.length).countP (fun k => (vectorAt m k).isSome) =
      m.countP (fun s => s.isSome) := by
  have hm : (List.range m.length).map (fun k => vectorAt m k) = m := by
    apply List.ext_getElem?
    intro k
    by_cases hk : k < m.length
    · simp [List.getElem?_map, List.getElem?_range hk, vectorAt, List.getD_eq_getElem?_getD,
        List.getElem?_eq_getElem hk]
    · have hk2 : m.length ≤ k := Nat.le_of_not_lt hk
      rw [List.getElem?_eq_none (by simpa using hk2), List.getElem?_eq_none hk2]
  conv_rhs => rw [← hm]
  rw [List.countP_map]
  rfl

/-- The body of the inner loop of `getAllEdges`. -/
theorem getAllEdges_eq [Inhabited V] (g : GraphMatrix V E D) :
    g.getAllEdges =
      (List.range g.numVertices).flatMap fun i =>
        (List.range g.numVertices).filterMap fun j =>
          (vectorAt g.adjacencyMatrix (g.getIndex i j)).map fun e =>
            (g.indexToVertex.getD i default, g.indexToVertex.getD j default, e.value) := by
  unfold GraphMatrix.getAllEdges
  apply List.flatMap_congr
  intro i _
  apply List.filterMap_congr
  intro j _
  cases vectorAt g.adjacencyMatrix (g.getIndex i j) <;> rfl

theorem getAllEdges_eq_rowMajorEdges [Inhabited V] (g : GraphMatrix V E D) :
    g.getAllEdges = rowMajorEdges g := by
  rw [getAllEdges_eq]
  unfold rowMajorEdges List.product
  rw [List.filterMap_flatMap]
  apply List.flatMap_congr
  intro i _
  rw [List.filterMap_map]
  rfl

/-- The number of triples is the number of present slots at the flat
positions below `numVertices * numVertices`. -/
theorem length_getAllEdges_flat [Inhabited V] (g : GraphMatrix V E D) :
    g.getAllEdges.length =
      (List.range (g.numVertices * g.numVertices)).countP
        (fun k => (vectorAt g.adjacencyMatrix k).isSome) := by
  rw [getAllEdges_eq, range_mul_eq_flatMap, List.length_flatMap, List.countP_flatMap]
  congr 1
  apply List.map_congr_left
  intro i _
  simp only [Function.comp_apply, length_filterMap_eq_countP, List.countP_map]
  congr 1
  funext j
  simp only [Function.comp_apply, GraphMatrix.getIndex]
  cases vectorAt g.adjacencyMatrix (i * g.numVertices + j) <;> rfl

theorem length_getAllEdges [DecidableEq V] [Inhabited V] {g : GraphMatrix V E D}
    (hinv : Inv g) :
    g.getAllEdges.length = g.adjacencyMatrix.countP (fun s => s.isSome) := by
  rw [length_getAllEdges_flat, ← hinv.matrix_length, countP_positions]

/-- What one visited index pair contributes. -/
theorem getAllEdges_entry [DecidableEq V] [Inhabited V] {g : GraphMatrix V E D}
    (hinv : Inv g) {i j : Nat} (hi : i < g.numVertices) (hj : j < g.numVertices)
    {t : V × V × E}
    (ht : (vectorAt g.adjacencyMatrix (g.getIndex i j)).map (fun e =>
      (g.indexToVertex.getD i default, g.indexToVertex.getD j default, e.value)) = some t) :
    g.vertexToIndex.lookup t.1 = some i ∧ g.vertexToIndex.lookup t.2.1 = some j ∧
      ∃ e, vectorAt g.adjacencyMatrix (g.getIndex i j) = some e ∧ t.2.2 = e.value := by
  have hlab : ∀ k, k < g.numVertices →
      g.vertexToIndex.lookup (g.indexToVertex.getD k default) = some k := by
    intro k hk
    rw [hinv.inverse]
    have hk2 : k < g.indexToVertex.length := by rw [hinv.labels_length]; exact hk
    rw [List.getD_eq_getElem _ _ hk2, List.getElem?_eq_getElem hk2]
  cases h : vectorAt g.adjacencyMatrix (g.getIndex i j) with
  | none => rw [h] at ht; cases ht
  | some e =>
    rw [h] at ht
    cases ht
    exact ⟨hlab i hi, hlab j hj, e, rfl, rfl⟩

theorem mem_getAllEdges [DecidableEq V] [Inhabited V] {g : GraphMatrix V E D}
    (hinv : Inv g) (s d : V) (p : E) :
    (s, d, p) ∈ g.getAllEdges ↔ g.hasEdge s d = .ok true ∧ g.getEdge s d = .ok p := by
  rw [getAllEdges_eq]
  simp only [List.mem_flatMap, List.mem_filterMap, List.mem_range]
  constructor
  · rintro ⟨i, hi, j, hj, ht⟩
    obtain ⟨h1, h2, e, he, hp⟩ := getAllEdges_entry hinv hi hj ht
    refine ⟨?_, ?_⟩
    · rw [hasEdge_of_lookup h1 h2, he]; rfl
    · rw [getEdge_of_some h1 h2 he]; exact congrArg _ hp.symm
  · rintro ⟨hh, hget⟩
    by_cases hc : mapCount g.vertexToIndex s = 0 ∨ mapCount g.vertexToIndex d = 0
    · simp only [GraphMatrix.hasEdge, if_pos hc] at hh; cases hh
    · rw [not_or] at hc
      obtain ⟨i, hi⟩ := (mapCount_ne_zero_iff _ _).1 hc.1
      obtain ⟨j, hj⟩ := (mapCount_ne_zero_iff _ _).1 hc.2
      have hil := hinv.index_lt hi
      have hjl := hinv.index_lt hj
      refine ⟨i, hil, j, hjl, ?_⟩
      have hs : g.indexToVertex.getD i default = s := by
        have := (hinv.inverse s i).1 hi
        rw [List.getD_eq_getElem?_getD, this]; rfl
      have hd : g.indexToVertex.getD j default = d := by
        have := (hinv.inverse d j).1 hj
        rw [List.getD_eq_getElem?_getD, this]; rfl
      cases h : vectorAt g.adjacencyMatrix (g.getIndex i j) with
      | none => rw [getEdge_of_none hi hj h] at hget; cases hget
      | some e =>
        rw [getEdge_of_some hi hj h] at hget
        cases hget
        rw [hs, hd]
        rfl

theorem pairwise_getAllEdges [DecidableEq V] [Inhabited V] {g : GraphMatrix V E D}
    (hinv : Inv g) : g.getAllEdges.Pairwise (edgeBefore g) := by
  rw [getAllEdges_eq, List.pairwise_flatMap]
  constructor
  · intro i hi
    rw [List.pairwise_filterMap]
    apply List.Pairwise.imp_of_mem _ (List.pairwise_lt_range g.numVertices)
    intro j k hj hk hjk t ht u hu
    rw [List.mem_range] at hi hj hk
    obtain ⟨a1, a2, _⟩ := getAllEdges_entry hinv hi hj ht
    obtain ⟨b1, b2, _⟩ := getAllEdges_entry hinv hi hk hu
    exact ⟨i, j, i, k, a1, a2, b1, b2, Or.inr ⟨rfl, hjk⟩⟩
  · apply List.Pairwise.imp_of_mem _ (List.pairwise_lt_range g.numVertices)
    intro i k hi hk hik t ht u hu
    rw [List.mem_range] at hi hk
    obtain ⟨j, hj, ht⟩ := List.mem_filterMap.1 ht
    obtain ⟨l, hl, hu⟩ := List.mem_filterMap.1 hu
    rw [List.mem_range] at hj hl
    obtain ⟨a1, a2, _⟩ := getAllEdges_entry hinv hi hj ht
    obtain ⟨b1, b2, _⟩ := getAllEdges_entry hinv hk hl hu
    exact ⟨i, j, k, l, a1, a2, b1, b2, Or.inl hik⟩

/-- C9: in every reachable state `getAllEdges()` is the row-major enumeration
of the present slots; a triple `(s, d, p)` is listed exactly when
`hasEdge(s, d)` is true and `getEdge(s, d)` returns `p`; the triples come in
strictly increasing (source index, destination index) order, so no pair is
listed twice; and there are as many triples as present slots. -/
theorem getAllEdges_spec [DecidableEq V] [Inhabited V] (g : GraphMatrix V E D)
    (hg : Reachable g) :
    g.getAllEdges = rowMajorEdges g ∧
    (∀ s d p, (s, d, p) ∈ g.getAllEdges ↔
      g.hasEdge s d = .ok true ∧ g.getEdge s d = .ok p) ∧
    g.getAllEdges.Pairwise (edgeBefore g) ∧
    g.getAllEdges.length = g.adjacencyMatrix.countP (fun s => s.isSome) :=
  ⟨getAllEdges_eq_rowMajorEdges g, mem_getAllEdges hg.inv, pairwise_getAllEdges hg.inv,
    length_getAllEdges hg.inv⟩

/-- C9 at a concrete input: `exampleDirected`, whose enumeration is
`[(1, 2, 5), (2, 1, 7)]`. -/
theorem getAllEdges_spec_witness :
    (Reachable exampleDirected ∧ exampleDirected.getAllEdges = [(1, 2, 5), (2, 1, 7)]) ∧
    exampleDirected.getAllEdges = rowMajorEdges exampleDirected ∧
    (∀ s d p, (s, d, p) ∈ exampleDirected.getAllEdges ↔
      exampleDirected.hasEdge s d = .ok true ∧ exampleDirected.getEdge s d = .ok p) ∧
    exampleDirected.getAllEdges.Pairwise (edgeBefore exampleDirected) ∧
    exampleDirected.getAllEdges.length =
      exampleDirected.adjacencyMatrix.countP (fun s => s.isSome) :=
  ⟨⟨exampleDirected_reachable, rfl⟩, getAllEdges_spec exampleDirected exampleDirected_reachable⟩

/-! ## A single inserted edge, read right after the insertion -/

/-- The slots of the matrix after a successful `addEdge`. -/
theorem vectorAt_addEdge [DecidableEq V] {g : GraphMatrix V E D} (hinv : Inv g)
    {i j : Nat} (hi : i < g.numVertices) (hj : j < g.numVertices) (p : E)
    {x y : Nat} (hy : y < g.numVertices) :
    vectorAt
      (if D = Direction.UndirectedG then
        (g.adjacencyMatrix.set (g.getIndex i j) (some ⟨p⟩)).set (g.getIndex j i) (some ⟨p⟩)
      else g.adjacencyMatrix.set (g.getIndex i j) (some ⟨p⟩)) (g.getIndex x y) =
      if (x = i ∧ y = j) ∨ (D = Direction.UndirectedG ∧ x = j ∧ y = i) then some ⟨p⟩
      else vectorAt g.adjacencyMatrix (g.getIndex x y) := by
  have hk := hinv.index_lt_length hi hj
  have hk2 := hinv.index_lt_length hj hi
  have e1 : g.getIndex i j = g.getIndex x y ↔ (x = i ∧ y = j) := by
    constructor
    · intro h; obtain ⟨a, b⟩ := g.getIndex_inj hj hy h; exact ⟨a.symm, b.symm⟩
    · rintro ⟨rfl, rfl⟩; rfl
  have e2 : g.getIndex j i = g.getIndex x y ↔ (x = j ∧ y = i) := by
    constructor
    · intro h; obtain ⟨a, b⟩ := g.getIndex_inj hi hy h; exact ⟨a.symm, b.symm⟩
    · rintro ⟨rfl, rfl⟩; rfl
  by_cases hD : D = Direction.UndirectedG
  · rw [if_pos hD]
    by_cases h2 : g.getIndex j i = g.getIndex x y
    · rw [← h2, vectorAt_set_self _ _ (by simpa using hk2),
        if_pos (Or.inr ⟨hD, e2.1 h2⟩)]
    · rw [vectorAt_set_ne _ _ h2]
      by_cases h1 : g.getIndex i j = g.getIndex x y
      · rw [← h1, vectorAt_set_self _ _ hk, if_pos (Or.inl (e1.1 h1))]
      · rw [vectorAt_set_ne _ _ h1, if_neg]
        rintro (h | ⟨_, h⟩)
        · exact h1 (e1.2 h)
        · exact h2 (e2.2 h)
  · rw [if_neg hD]
    by_cases h1 : g.getIndex i j = g.getIndex x y
    · rw [← h1, vectorAt_set_self _ _ hk, if_pos (Or.inl (e1.1 h1))]
    · rw [vectorAt_set_ne _ _ h1, if_neg]
      rintro (h | ⟨h, _⟩)
      · exact h1 (e1.2 h)
      · exact hD h

theorem add_single_vertex_matrix [DecidableEq V] (g : GraphMatrix V E D) (v : V) :
    (g.add_single_vertex v).adjacencyMatrix = g.adjacencyMatrix := by
  unfold GraphMatrix.add_single_vertex
  split <;> rfl

theorem foldl_add_single_vertex_matrix [DecidableEq V] (l : List V) :
    ∀ (g : GraphMatrix V E D),
      (l.foldl GraphMatrix.add_single_vertex g).adjacencyMatrix = g.adjacencyMatrix := by
  induction l with
  | nil => intro g; rfl
  | cons x xs ih => intro g; rw [List.foldl_cons, ih, add_single_vertex_matrix]

/-- The matrix after `addVertex`: the old flat contents, resized. -/
theorem addVertex_matrix [DecidableEq V] (g : GraphMatrix V E D) (l : List V) :
    (g.addVertex l).adjacencyMatrix =
      vectorResize g.adjacencyMatrix
        ((g.addVertex l).numVertices * (g.addVertex l).numVertices) none := by
  unfold GraphMatrix.addVertex
  simp only [foldl_add_single_vertex_matrix]

theorem vectorResize_all_none {m : List (Option (EdgeInfo E))} (h : ∀ x ∈ m, x = none)
    (n : Nat) : ∀ x ∈ vectorResize m n none, x = none := by
  intro x hx
  unfold vectorResize at hx
  rcases List.mem_append.1 hx with hx | hx
  · exact h x (List.mem_of_mem_take hx)
  · exact (List.mem_replicate.1 hx).2

/-- Registering vertices on a graph without edges leaves it without edges. -/
theorem foldl_addVertex_all_none [DecidableEq V] (calls : List (List V)) :
    ∀ (g : GraphMatrix V E D), (∀ x ∈ g.adjacencyMatrix, x = none) →
      ∀ x ∈ (calls.foldl GraphMatrix.addVertex g).adjacencyMatrix, x = none := by
  induction calls with
  | nil => intro g h; exact h
  | cons c cs ih =>
    intro g h
    rw [List.foldl_cons]
    apply ih
    rw [addVertex_matrix]
    exact vectorResize_all_none h _

theorem foldl_addVertex_reachable [DecidableEq V] (calls : List (List V)) :
    ∀ (g : GraphMatrix V E D), Reachable g →
      Reachable (calls.foldl GraphMatrix.addVertex g) := by
  induction calls with
  | nil => intro g h; exact h
  | cons c cs ih => intro g h; exact ih _ (Reachable.addVertex c h)

theorem vectorAt_all_none {m : List (Option (EdgeInfo E))} (h : ∀ x ∈ m, x = none)
    (k : Nat) : vectorAt m k = none := by
  unfold vectorAt
  rw [List.getD_eq_getElem?_getD]
  cases hk : m[k]? with
  | none => rfl
  | some x =>
    obtain ⟨hlt, hx⟩ := List.getElem?_eq_some_iff.1 hk
    exact h x (hx ▸ List.getElem_mem hlt)

theorem edgeBefore_ne [DecidableEq V] {g : GraphMatrix V E D} {t u : V × V × E}
    (h : edgeBefore g t u) : t ≠ u := by
  rintro rfl
  obtain ⟨i, j, a, b, h1, h2, h3, h4, h5⟩ := h
  rw [h1] at h3
  rw [h2] at h4
  have hia : i = a := Option.some.inj h3
  have hjb : j = b := Option.some.inj h4
  omega

theorem nodup_getAllEdges [DecidableEq V] [Inhabited V] {g : GraphMatrix V E D}
    (hinv : Inv g) : g.getAllEdges.Nodup :=
  (pairwise_getAllEdges hinv).imp edgeBefore_ne

/-- The triples listed after one `addEdge` on a graph without edges. -/
theorem mem_getAllEdges_single [DecidableEq V] [Inhabited V] {g g1 : GraphMatrix V E D}
    (hinv : Inv g) (hnone : ∀ x ∈ g.adjacencyMatrix, x = none) {A B : V} {p : E}
    (hadd : g.addEdge A B p = (.ok (), g1)) (t : V × V × E) :
    t ∈ g1.getAllEdges ↔ t = (A, B, p) ∨ (D = Direction.UndirectedG ∧ t = (B, A, p)) := by
  obtain ⟨s, d, q⟩ := t
  have hinv1 : Inv g1 := by
    have := hinv.addEdge A B p
    rw [hadd] at this
    exact this
  rw [mem_getAllEdges hinv1]
  obtain ⟨i, j, hi, hj⟩ := addEdge_ok_lookup (congrArg Prod.fst hadd)
  have hil := hinv.index_lt hi
  have hjl := hinv.index_lt hj
  rw [addEdge_of_lookup p hi hj] at hadd
  cases hadd
  constructor
  · rintro ⟨hh, hget⟩
    by_cases hc : mapCount g.vertexToIndex s = 0 ∨ mapCount g.vertexToIndex d = 0
    · simp only [GraphMatrix.hasEdge, if_pos hc] at hh; cases hh
    · rw [not_or] at hc
      obtain ⟨x, hx⟩ := (mapCount_ne_zero_iff _ _).1 hc.1
      obtain ⟨y, hy⟩ := (mapCount_ne_zero_iff _ _).1 hc.2
      have hyl := hinv.index_lt hy
      have hslot := vectorAt_addEdge hinv hil hjl p (x := x) hyl
      by_cases hcond : (x = i ∧ y = j) ∨ (D = Direction.UndirectedG ∧ x = j ∧ y = i)
      · rw [if_pos hcond] at hslot
        rw [getEdge_with_matrix_some g _ hx hy hslot] at hget
        have hq : p = q := by cases hget; rfl
        subst hq
        rcases hcond with ⟨rfl, rfl⟩ | ⟨hD, rfl, rfl⟩
        · left
          rw [hinv.index_inj hx hi, hinv.index_inj hy hj]
        · right
          refine ⟨hD, ?_⟩
          rw [hinv.index_inj hx hj, hinv.index_inj hy hi]
      · rw [if_neg hcond, vectorAt_all_none hnone] at hslot
        rw [hasEdge_with_matrix g _ hx hy, hslot] at hh
        cases hh
  · rintro (h | ⟨hD, h⟩)
    · cases h
      have hslot := vectorAt_addEdge hinv hil hjl p (x := i) hjl
      rw [if_pos (Or.inl ⟨rfl, rfl⟩)] at hslot
      exact ⟨by rw [hasEdge_with_matrix g _ hi hj, hslot]; rfl,
        getEdge_with_matrix_some g _ hi hj hslot⟩
    · cases h
      have hslot := vectorAt_addEdge hinv hil hjl p (x := j) hil
      rw [if_pos (Or.inr ⟨hD, rfl, rfl⟩)] at hslot
      exact ⟨by rw [hasEdge_with_matrix g _ hj hi, hslot]; rfl,
        getEdge_with_matrix_some g _ hj hi hslot⟩

/-- A label passed to some `addVertex` call on a fresh graph is registered. -/
theorem registered_after_calls [DecidableEq V] (weighted : Bool) (calls : List (List V))
    {v : V} (hv : ∃ c ∈ calls, v ∈ c) :
    mapCount (calls.foldl GraphMatrix.addVertex
      (GraphMatrix.empty weighted : GraphMatrix V E D)).vertexToIndex v ≠ 0 := by
  have hr := foldl_addVertex_reachable calls _
    (Reachable.empty weighted : Reachable (GraphMatrix.empty weighted : GraphMatrix V E D))
  rw [hr.inv.toMapInv.registered_iff_mem]
  have := getVertices_after_calls (E := E) (D := D) weighted calls
  unfold GraphMatrix.getVertices at this
  rw [this, mem_firstOccurrences, List.mem_flatten]
  exact hv

/-- As long as no vertex is registered after the insertion: on a fresh graph on
which only `addVertex` calls were made, two distinct labels `A` and `B` among
them, the call `addEdge(A, B, p)` succeeds and right after it `getAllEdges()`
holds exactly the two triples `(A, B, p)` and `(B, A, p)` when the graph is
undirected, and is the one-element list `[(A, B, p)]` when the graph is
directed. -/
theorem getAllEdges_single_edge [DecidableEq V] [Inhabited V] (weighted : Bool)
    (calls : List (List V)) (A B : V) (p : E) (hAB : A ≠ B)
    (hA : ∃ c ∈ calls, A ∈ c) (hB : ∃ c ∈ calls, B ∈ c) :
    (∃ g1, (calls.foldl GraphMatrix.addVertex
        (GraphMatrix.empty weighted : GraphMatrix V E Direction.UndirectedG)).addEdge A B p =
          (.ok (), g1) ∧
      g1.getAllEdges.Perm [(A, B, p), (B, A, p)]) ∧
    (∃ g1, (calls.foldl GraphMatrix.addVertex
        (GraphMatrix.empty weighted : GraphMatrix V E Direction.DirectedG)).addEdge A B p =
          (.ok (), g1) ∧
      g1.getAllEdges = [(A, B, p)]) := by
  have start : ∀ (D : Direction), ∃ g1 : GraphMatrix V E D,
      (calls.foldl GraphMatrix.addVertex
        (GraphMatrix.empty weighted : GraphMatrix V E D)).addEdge A B p = (.ok (), g1) ∧
      g1.getAllEdges.Nodup ∧
      ∀ t, t ∈ g1.getAllEdges ↔
        t = (A, B, p) ∨ (D = Direction.UndirectedG ∧ t = (B, A, p)) := by
    intro D
    have hr := foldl_addVertex_reachable calls _
      (Reachable.empty weighted : Reachable (GraphMatrix.empty weighted : GraphMatrix V E D))
    have hnone := foldl_addVertex_all_none calls
      (GraphMatrix.empty weighted : GraphMatrix V E D) (by simp [GraphMatrix.empty])
    obtain ⟨i, hi⟩ := (mapCount_ne_zero_iff _ _).1
      (registered_after_calls (E := E) (D := D) weighted calls hA)
    obtain ⟨j, hj⟩ := (mapCount_ne_zero_iff _ _).1
      (registered_after_calls (E := E) (D := D) weighted calls hB)
    have hadd := addEdge_of_lookup p hi hj
    have hinv1 := hr.inv.addEdge A B p
    rw [hadd] at hinv1
    exact ⟨_, hadd, nodup_getAllEdges hinv1, mem_getAllEdges_single hr.inv hnone hadd⟩
  constructor
  · obtain ⟨g1, hadd, hnd, hmem⟩ := start Direction.UndirectedG
    refine ⟨g1, hadd, ?_⟩
    rw [List.perm_ext_iff_of_nodup hnd]
    · intro t
      rw [hmem]
      simp
    · simp only [List.nodup_cons, List.mem_singleton, List.not_mem_nil, not_false_eq_true,
        List.nodup_nil, and_true]
      intro h
      exact hAB (congrArg Prod.fst h)
  · obtain ⟨g1, hadd, hnd, hmem⟩ := start Direction.DirectedG
    refine ⟨g1, hadd, ?_⟩
    have hperm : g1.getAllEdges.Perm [(A, B, p)] := by
      rw [List.perm_ext_iff_of_nodup hnd (List.nodup_singleton _)]
      intro t
      rw [hmem]
      simp
    exact List.perm_singleton.1 hperm

/-- The single-edge enumeration at a concrete input: labels 1 and 2 registered
in one call, then `addEdge(1, 2, 5)` and no further registration. -/
theorem getAllEdges_single_edge_witness :
    ((1 : Nat) ≠ 2 ∧ (∃ c ∈ [[(1 : Nat), 2]], 1 ∈ c) ∧ (∃ c ∈ [[(1 : Nat), 2]], 2 ∈ c)) ∧
    (∃ g1, ([[1, 2]].foldl GraphMatrix.addVertex
        (GraphMatrix.empty true : GraphMatrix Nat Int Direction.UndirectedG)).addEdge 1 2 5 =
          (.ok (), g1) ∧
      g1.getAllEdges.Perm [(1, 2, 5), (2, 1, 5)]) ∧
    (∃ g1, ([[1, 2]].foldl GraphMatrix.addVertex
        (GraphMatrix.empty true : GraphMatrix Nat Int Direction.DirectedG)).addEdge 1 2 5 =
          (.ok (), g1) ∧
      g1.getAllEdges = [(1, 2, 5)]) :=
  ⟨⟨by decide, by decide, by decide⟩,
    getAllEdges_single_edge true [[1, 2]] 1 2 5 (by decide) (by decide) (by decide)⟩

/-! ## Representation invariants in reachable states (C16, C17) -/

/-- Reading `mapAt` back as a lookup. -/
theorem lookup_of_mapAt [DecidableEq V] {m : List (V × Nat)} {k : V} {i : Nat}
    (h : mapAt m k = .ok i) : m.lookup k = some i := by
  unfold mapAt at h
  cases hl : m.lookup k with
  | none => rw [hl] at h; cases h
  | some x => rw [hl] at h; cases h; rfl

/-- C16: in every reachable state the matrix has exactly
`numVertices * numVertices` entries, so the flat position `getIndex i j` of
every index pair below `numVertices` is a position of the matrix; the index
`at` returns for a registered label is below `numVertices`, and every index
below `numVertices` is a position of the index-to-label sequence. -/
theorem matrix_length_reachable [DecidableEq V] (g : GraphMatrix V E D) (hg : Reachable g) :
    g.adjacencyMatrix.length = g.numVertices * g.numVertices ∧
    (∀ i j, i < g.numVertices → j < g.numVertices →
      g.getIndex i j < g.adjacencyMatrix.length) ∧
    (∀ v i, mapAt g.vertexToIndex v = .ok i → i < g.numVertices) ∧
    (∀ i, i < g.numVertices → i < g.indexToVertex.length) := by
  have hinv := hg.inv
  refine ⟨hinv.matrix_length, fun i j hi hj => hinv.index_lt_length hi hj, ?_, ?_⟩
  · intro v i hv
    exact hinv.index_lt (lookup_of_mapAt hv)
  · intro i hi
    rw [hinv.labels_length]; exact hi

/-- C16 at a concrete input: `exampleGrown`, whose matrix has 9 entries. -/
theorem matrix_length_reachable_witness :
    (Reachable exampleGrown ∧ exampleGrown.adjacencyMatrix.length = 9) ∧
    exampleGrown.adjacencyMatrix.length = exampleGrown.numVertices * exampleGrown.numVertices ∧
    (∀ i j, i < exampleGrown.numVertices → j < exampleGrown.numVertices →
      exampleGrown.getIndex i j < exampleGrown.adjacencyMatrix.length) ∧
    (∀ v i, mapAt exampleGrown.vertexToIndex v = .ok i → i < exampleGrown.numVertices) ∧
    (∀ i, i < exampleGrown.numVertices → i < exampleGrown.indexToVertex.length) :=
  ⟨⟨Reachable.addVertex [3] (Reachable.addEdge 1 2 5
      (Reachable.addVertex [1, 2] (Reachable.empty true))), rfl⟩,
    matrix_length_reachable exampleGrown (Reachable.addVertex [3] (Reachable.addEdge 1 2 5
      (Reachable.addVertex [1, 2] (Reachable.empty true))))⟩

/-- C17: in every reachable state the vertex index map (whose keys are
pairwise distinct) and the index-to-label sequence both have `numVertices`
entries; the map sends `v` to `i` exactly when `i < numVertices` and the
sequence holds `v` at position `i`; so the map is injective on the registered
labels and reaches every index below `numVertices`. -/
theorem vertex_map_bijection [DecidableEq V] (g : GraphMatrix V E D) (hg : Reachable g) :
    g.vertexToIndex.length = g.numVertices ∧
    (g.vertexToIndex.map Prod.fst).Nodup ∧
    g.indexToVertex.length = g.numVertices ∧
    (∀ v i, g.vertexToIndex.lookup v = some i ↔
      i < g.numVertices ∧ g.indexToVertex[i]? = some v) ∧
    (∀ a b i, g.vertexToIndex.lookup a = some i → g.vertexToIndex.lookup b = some i →
      a = b) ∧
    (∀ i, i < g.numVertices → ∃ v, g.vertexToIndex.lookup v = some i) := by
  have hinv := hg.inv
  refine ⟨hinv.map_length, hinv.keys_nodup, hinv.labels_length, ?_, ?_, ?_⟩
  · intro v i
    constructor
    · intro h; exact ⟨hinv.index_lt h, (hinv.inverse v i).1 h⟩
    · intro h; exact (hinv.inverse v i).2 h.2
  · intro a b i ha hb
    exact hinv.index_inj ha hb
  · intro i hi
    have hlt : i < g.indexToVertex.length := by rw [hinv.labels_length]; exact hi
    exact ⟨g.indexToVertex[i], (hinv.inverse _ i).2 (List.getElem?_eq_getElem hlt)⟩

/-- C17 at a concrete input: `exampleGrown`, with the labels `[1, 2, 3]`. -/
theorem vertex_map_bijection_witness :
    (Reachable exampleGrown ∧ exampleGrown.indexToVertex = [1, 2, 3]) ∧
    exampleGrown.vertexToIndex.length = exampleGrown.numVertices ∧
    (exampleGrown.vertexToIndex.map Prod.fst).Nodup ∧
    exampleGrown.indexToVertex.length = exampleGrown.numVertices ∧
    (∀ v i, exampleGrown.vertexToIndex.lookup v = some i ↔
      i < exampleGrown.numVertices ∧ exampleGrown.indexToVertex[i]? = some v) ∧
    (∀ a b i, exampleGrown.vertexToIndex.lookup a = some i →
      exampleGrown.vertexToIndex.lookup b = some i → a = b) ∧
    (∀ i, i < exampleGrown.numVertices → ∃ v, exampleGrown.vertexToIndex.lookup v = some i) :=
  ⟨⟨Reachable.addVertex [3] (Reachable.addEdge 1 2 5
      (Reachable.addVertex [1, 2] (Reachable.empty true))), rfl⟩,
    vertex_map_bijection exampleGrown (Reachable.addVertex [3] (Reachable.addEdge 1 2 5
      (Reachable.addVertex [1, 2] (Reachable.empty true))))⟩

/-! ## Failed calls (C12) -/

/-- The outcome of `addEdge` on registered labels is success. -/
theorem addEdge_error_unregistered [DecidableEq V] {g : GraphMatrix V E D} {src dest : V}
    {p : E} {e : Error} (h : (g.addEdge src dest p).1 = .error e) :
    mapCount g.vertexToIndex src = 0 ∨ mapCount g.vertexToIndex dest = 0 := by
  by_contra hc
  rw [not_or] at hc
  obtain ⟨i, hi⟩ := (mapCount_ne_zero_iff _ _).1 hc.1
  obtain ⟨j, hj⟩ := (mapCount_ne_zero_iff _ _).1 hc.2
  rw [addEdge_of_lookup p hi hj] at h
  cases h

/-- The outcome of `removeEdge` on registered labels is success. -/
theorem removeEdge_error_unregistered [DecidableEq V] {g : GraphMatrix V E D} {src dest : V}
    {e : Error} (h : (g.removeEdge src dest).1 = .error e) :
    mapCount g.vertexToIndex src = 0 ∨ mapCount g.vertexToIndex dest = 0 := by
  by_contra hc
  rw [not_or] at hc
  obtain ⟨i, hi⟩ := (mapCount_ne_zero_iff _ _).1 hc.1
  obtain ⟨j, hj⟩ := (mapCount_ne_zero_iff _ _).1 hc.2
  rw [removeEdge_of_lookup hi hj] at h
  cases h

/-- C12: in every state, a call of `addEdge` or `removeEdge` that throws leaves
the object in the state it was in, field by field; the error it throws is the
invalid-argument one, and it is thrown whenever a label is not registered.
(`hasEdge`, `getEdge` and `getNeighbors` are const members: they have no state
to return.) -/
theorem failed_call_keeps_state [DecidableEq V] (g : GraphMatrix V E D) (src dest : V)
    (p : E) (e : Error) :
    ((g.addEdge src dest p).1 = .error e →
      (g.addEdge src dest p).2 = g ∧
      (g.addEdge src dest p).2.vertexToIndex = g.vertexToIndex ∧
      (g.addEdge src dest p).2.indexToVertex = g.indexToVertex ∧
      (g.addEdge src dest p).2.numVertices = g.numVertices ∧
      (g.addEdge src dest p).2.adjacencyMatrix = g.adjacencyMatrix ∧
      e = .invalid_argument "One or both vertices do not exist") ∧
    ((g.removeEdge src dest).1 = .error e →
      (g.removeEdge src dest).2 = g ∧
      (g.removeEdge src dest).2.vertexToIndex = g.vertexToIndex ∧
      (g.removeEdge src dest).2.indexToVertex = g.indexToVertex ∧
      (g.removeEdge src dest).2.numVertices = g.numVertices ∧
      (g.removeEdge src dest).2.adjacencyMatrix = g.adjacencyMatrix ∧
      e = .invalid_argument "One or both vertices do not exist") ∧
    ((mapCount g.vertexToIndex src = 0 ∨ mapCount g.vertexToIndex dest = 0) →
      (g.addEdge src dest p).1 =
        .error (.invalid_argument "One or both vertices do not exist") ∧
      (g.removeEdge src dest).1 =
        .error (.invalid_argument "One or both vertices do not exist")) := by
  refine ⟨?_, ?_, ?_⟩
  · intro h
    have hc := addEdge_error_unregistered h
    rw [addEdge_of_unregistered p hc] at h ⊢
    refine ⟨rfl, rfl, rfl, rfl, rfl, ?_⟩
    cases h; rfl
  · intro h
    have hc := removeEdge_error_unregistered h
    rw [removeEdge_of_unregistered hc] at h ⊢
    refine ⟨rfl, rfl, rfl, rfl, rfl, ?_⟩
    cases h; rfl
  · intro hc
    rw [addEdge_of_unregistered p hc, removeEdge_of_unregistered hc]
    exact ⟨rfl, rfl⟩

/-! ## Stable vertex indices (C18) -/

/-- A registered label keeps its index through `add_single_vertex`. -/
theorem lookup_add_single_vertex [DecidableEq V] (g : GraphMatrix V E D) (x : V) {v : V}
    {i : Nat} (h : g.vertexToIndex.lookup v = some i) :
    (g.add_single_vertex x).vertexToIndex.lookup v = some i := by
  unfold GraphMatrix.add_single_vertex
  by_cases hc : mapCount g.vertexToIndex x ≠ 0
  · rw [if_pos hc]; exact h
  · rw [if_neg hc]
    have hnone : g.vertexToIndex.lookup x = none := by
      rw [← mapCount_eq_zero_iff]; simpa using hc
    have hvx : v ≠ x := by
      intro he; rw [he, hnone] at h; cases h
    show List.lookup v (mapAssign g.vertexToIndex x g.numVertices) = some i
    rw [mapAssign_of_lookup_none _ hnone, lookup_cons_fresh, if_neg hvx]
    exact h

/-- The labels after `add_single_vertex` extend the labels before it. -/
theorem labels_add_single_vertex [DecidableEq V] (g : GraphMatrix V E D) (x : V) :
    ∃ t, (g.add_single_vertex x).indexToVertex = g.indexToVertex ++ t := by
  unfold GraphMatrix.add_single_vertex
  by_cases hc : mapCount g.vertexToIndex x ≠ 0
  · rw [if_pos hc]; exact ⟨[], by simp⟩
  · rw [if_neg hc]; exact ⟨[x], rfl⟩

theorem lookup_foldl_add_single_vertex [DecidableEq V] (l : List V) :
    ∀ (g : GraphMatrix V E D) {v : V} {i : Nat}, g.vertexToIndex.lookup v = some i →
      (l.foldl GraphMatrix.add_single_vertex g).vertexToIndex.lookup v = some i := by
  induction l with
  | nil => intro g v i h; exact h
  | cons x xs ih =>
    intro g v i h
    rw [List.foldl_cons]
    exact ih _ (lookup_add_single_vertex g x h)

theorem labels_foldl_add_single_vertex [DecidableEq V] (l : List V) :
    ∀ (g : GraphMatrix V E D),
      ∃ t, (l.foldl GraphMatrix.add_single_vertex g).indexToVertex = g.indexToVertex ++ t := by
  induction l with
  | nil => intro g; exact ⟨[], by simp⟩
  | cons x xs ih =>
    intro g
    rw [List.foldl_cons]
    obtain ⟨t1, h1⟩ := labels_add_single_vertex g x
    obtain ⟨t2, h2⟩ := ih (g.add_single_vertex x)
    exact ⟨t1 ++ t2, by rw [h2, h1, List.append_assoc]⟩

/-- The vertex bookkeeping is untouched by `addEdge`. -/
theorem addEdge_bookkeeping [DecidableEq V] (g : GraphMatrix V E D) (src dest : V) (p : E) :
    (g.addEdge src dest p).2.vertexToIndex = g.vertexToIndex ∧
    (g.addEdge src dest p).2.indexToVertex = g.indexToVertex ∧
    (g.addEdge src dest p).2.numVertices = g.numVertices := by
  by_cases hc : mapCount g.vertexToIndex src = 0 ∨ mapCount g.vertexToIndex dest = 0
  · rw [addEdge_of_unregistered p hc]; exact ⟨rfl, rfl, rfl⟩
  · rw [not_or] at hc
    obtain ⟨i, hi⟩ := (mapCount_ne_zero_iff _ _).1 hc.1
    obtain ⟨j, hj⟩ := (mapCount_ne_zero_iff _ _).1 hc.2
    rw [addEdge_of_lookup p hi hj]; exact ⟨rfl, rfl, rfl⟩

/-- The vertex bookkeeping is untouched by `removeEdge`. -/
theorem removeEdge_bookkeeping [DecidableEq V] (g : GraphMatrix V E D) (src dest : V) :
    (g.removeEdge src dest).2.vertexToIndex = g.vertexToIndex ∧
    (g.removeEdge src dest).2.indexToVertex = g.indexToVertex ∧
    (g.removeEdge src dest).2.numVertices = g.numVertices := by
  by_cases hc : mapCount g.vertexToIndex src = 0 ∨ mapCount g.vertexToIndex dest = 0
  · rw [removeEdge_of_unregistered hc]; exact ⟨rfl, rfl, rfl⟩
  · rw [not_or] at hc
    obtain ⟨i, hi⟩ := (mapCount_ne_zero_iff _ _).1 hc.1
    obtain ⟨j, hj⟩ := (mapCount_ne_zero_iff _ _).1 hc.2
    rw [removeEdge_of_lookup hi hj]; exact ⟨rfl, rfl, rfl⟩

/-- C18: in every state, a label registered before `addVertex` (with any
labels) is registered after it with the same index, and `getVertices()` after
the call starts with `getVertices()` before it; `addEdge`, `removeEdge`
(returning or throwing) and the callable probe leave the vertex index map and
`getVertices()` as they were.  (The remaining queries are const members.) -/
theorem vertex_indices_stable [DecidableEq V] (g : GraphMatrix V E D) (vertices : List V)
    (src dest : V) (p : E) :
    (∀ v i, g.vertexToIndex.lookup v = some i →
      (g.addVertex vertices).vertexToIndex.lookup v = some i) ∧
    (∀ v, mapCount g.vertexToIndex v ≠ 0 →
      mapCount (g.addVertex vertices).vertexToIndex v ≠ 0 ∧
      mapAt (g.addVertex vertices).vertexToIndex v = mapAt g.vertexToIndex v) ∧
    (∃ t, (g.addVertex vertices).getVertices = g.getVertices ++ t) ∧
    ((g.addEdge src dest p).2.vertexToIndex = g.vertexToIndex ∧
      (g.addEdge src dest p).2.getVertices = g.getVertices) ∧
    ((g.removeEdge src dest).2.vertexToIndex = g.vertexToIndex ∧
      (g.removeEdge src dest).2.getVertices = g.getVertices) ∧
    ((g.operator_call src dest).2.vertexToIndex = g.vertexToIndex ∧
      (g.operator_call src dest).2.getVertices = g.getVertices) := by
  have hlook : ∀ v i, g.vertexToIndex.lookup v = some i →
      (g.addVertex vertices).vertexToIndex.lookup v = some i :=
    fun v i h => lookup_foldl_add_single_vertex vertices g h
  refine ⟨hlook, ?_, labels_foldl_add_single_vertex vertices g, ?_, ?_, ?_⟩
  · intro v hv
    obtain ⟨i, hi⟩ := (mapCount_ne_zero_iff _ _).1 hv
    have hi2 := hlook v i hi
    exact ⟨(mapCount_ne_zero_iff _ _).2 ⟨i, hi2⟩, by
      rw [mapAt_of_lookup hi, mapAt_of_lookup hi2]⟩
  · exact ⟨(addEdge_bookkeeping g src dest p).1, (addEdge_bookkeeping g src dest p).2.1⟩
  · exact ⟨(removeEdge_bookkeeping g src dest).1, (removeEdge_bookkeeping g src dest).2.1⟩
  · rw [operator_call_state]; exact ⟨rfl, rfl⟩

/-! ## Re-registering (C14) -/

theorem vectorResize_length {α : Type} (v : List α) (x : α) :
    vectorResize v v.length x = v := by
  simp [vectorResize]

/-- Re-registering registered labels changes nothing in `add_single_vertex`. -/
theorem foldl_add_single_vertex_registered [DecidableEq V] (l : List V) :
    ∀ (g : GraphMatrix V E D), (∀ v ∈ l, mapCount g.vertexToIndex v ≠ 0) →
      l.foldl GraphMatrix.add_single_vertex g = g := by
  induction l with
  | nil => intro g _; rfl
  | cons x xs ih =>
    intro g h
    have hx : g.add_single_vertex x = g := by
      simp only [GraphMatrix.add_single_vertex, if_pos (h x (List.mem_cons_self x xs))]
    rw [List.foldl_cons, hx]
    exact ih g (fun v hv => h v (List.mem_cons_of_mem x hv))

/-- In a state whose matrix has `numVertices * numVertices` entries,
`addVertex` with registered labels only returns the state it was given. -/
theorem addVertex_registered [DecidableEq V] {g : GraphMatrix V E D}
    (hlen : g.adjacencyMatrix.length = g.numVertices * g.numVertices) {l : List V}
    (h : ∀ v ∈ l, mapCount g.vertexToIndex v ≠ 0) : g.addVertex l = g := by
  unfold GraphMatrix.addVertex
  simp only [foldl_add_single_vertex_registered l g h]
  rw [← hlen, vectorResize_length]

/-- A label is registered once `add_single_vertex` has run on it. -/
theorem registered_add_single_vertex [DecidableEq V] (g : GraphMatrix V E D) (v : V) :
    mapCount (g.add_single_vertex v).vertexToIndex v ≠ 0 := by
  unfold GraphMatrix.add_single_vertex
  by_cases hc : mapCount g.vertexToIndex v ≠ 0
  · rw [if_pos hc]; exact hc
  · rw [if_neg hc, mapCount_ne_zero_iff]
    exact ⟨g.numVertices, by simp [mapAssign, List.lookup_cons]⟩

/-- C14: in every reachable state, `addVertex` with labels that are all
registered returns the state it was given, field by field (the model of
`addVertex` has no throwing path); and in every state, `addVertex(v)` followed
by `addVertex(v)` gives the state of a single `addVertex(v)`. -/
theorem addVertex_registered_noop [DecidableEq V] (g : GraphMatrix V E D) (hg : Reachable g)
    (vertices : List V) (h : ∀ v ∈ vertices, mapCount g.vertexToIndex v ≠ 0) :
    g.addVertex vertices = g ∧
    (g.addVertex vertices).vertexToIndex = g.vertexToIndex ∧
    (g.addVertex vertices).indexToVertex = g.indexToVertex ∧
    (g.addVertex vertices).numVertices = g.numVertices ∧
    (g.addVertex vertices).adjacencyMatrix = g.adjacencyMatrix ∧
    (∀ (k : GraphMatrix V E D) (v : V),
      (k.addVertex [v]).addVertex [v] = k.addVertex [v]) := by
  have h1 := addVertex_registered hg.inv.matrix_length h
  refine ⟨h1, by rw [h1], by rw [h1], by rw [h1], by rw [h1], ?_⟩
  intro k v
  apply addVertex_registered
  · exact length_vectorResize _ _ _
  · intro w hw
    rw [List.mem_singleton] at hw
    subst hw
    exact registered_add_single_vertex k w

/-- C14 at a concrete input: `addVertex(2, 1, 2)` on `exampleDirected`. -/
theorem addVertex_registered_noop_witness :
    (Reachable exampleDirected ∧
      ∀ v ∈ [2, 1, 2], mapCount exampleDirected.vertexToIndex v ≠ 0) ∧
    exampleDirected.addVertex [2, 1, 2] = exampleDirected ∧
    (exampleDirected.addVertex [2, 1, 2]).vertexToIndex = exampleDirected.vertexToIndex ∧
    (exampleDirected.addVertex [2, 1, 2]).indexToVertex = exampleDirected.indexToVertex ∧
    (exampleDirected.addVertex [2, 1, 2]).numVertices = exampleDirected.numVertices ∧
    (exampleDirected.addVertex [2, 1, 2]).adjacencyMatrix = exampleDirected.adjacencyMatrix ∧
    (∀ (k : GraphMatrix Nat Int Direction.DirectedG) (v : Nat),
      (k.addVertex [v]).addVertex [v] = k.addVertex [v]) :=
  ⟨⟨exampleDirected_reachable, by decide⟩,
    addVertex_registered_noop exampleDirected exampleDirected_reachable [2, 1, 2] (by decide)⟩

/-! ## Neighbours (C11, C19) -/

theorem mem_setInsert [LinearOrder V] (s : List V) (v x : V) :
    x ∈ setInsert s v ↔ x = v ∨ x ∈ s := by
  induction s with
  | nil => simp [setInsert]
  | cons a s ih =>
    unfold setInsert
    by_cases h1 : v < a
    · rw [if_pos h1]; simp
    · rw [if_neg h1]
      by_cases h2 : a < v
      · rw [if_pos h2, List.mem_cons, ih, List.mem_cons]
        constructor
        · rintro (h | h | h)
          · exact Or.inr (Or.inl h)
          · exact Or.inl h
          · exact Or.inr (Or.inr h)
        · rintro (h | h | h)
          · exact Or.inr (Or.inl h)
          · exact Or.inl h
          · exact Or.inr (Or.inr h)
      · rw [if_neg h2]
        have hva : v = a := le_antisymm (not_lt.1 h2) (not_lt.1 h1)
        subst hva
        simp

theorem pairwise_setInsert [LinearOrder V] (s : List V) (v : V)
    (hs : s.Pairwise (fun a b => a < b)) : (setInsert s v).Pairwise (fun a b => a < b) := by
  induction s with
  | nil => simp [setInsert]
  | cons a s ih =>
    unfold setInsert
    rw [List.pairwise_cons] at hs
    by_cases h1 : v < a
    · rw [if_pos h1, List.pairwise_cons]
      refine ⟨?_, List.pairwise_cons.2 hs⟩
      intro b hb
      rcases List.mem_cons.1 hb with rfl | hb
      · exact h1
      · exact lt_trans h1 (hs.1 b hb)
    · rw [if_neg h1]
      by_cases h2 : a < v
      · rw [if_pos h2, List.pairwise_cons]
        refine ⟨?_, ih hs.2⟩
        intro b hb
        rcases (mem_setInsert s v b).1 hb with rfl | hb
        · exact h2
        · exact hs.1 b hb
      · rw [if_neg h2]
        exact List.pairwise_cons.2 hs

/-- What one iteration of the loop of `getNeighbors` adds. -/
theorem mem_neighborsStep [LinearOrder V] [Inhabited V] (g : GraphMatrix V E D) (vi : Nat)
    (acc : List V) (d : Nat) (x : V) :
    x ∈ neighborsStep g vi acc d ↔
      x ∈ acc ∨
      (((vectorAt g.adjacencyMatrix (g.getIndex vi d)).isSome = true ∨
          (D = Direction.UndirectedG ∧
            (vectorAt g.adjacencyMatrix (g.getIndex d vi)).isSome = true)) ∧
        x = g.indexToVertex.getD d default) := by
  unfold neighborsStep
  by_cases h1 : (vectorAt g.adjacencyMatrix (g.getIndex vi d)).isSome = true
  · by_cases hD : D = Direction.UndirectedG
    · by_cases h2 : (vectorAt g.adjacencyMatrix (g.getIndex d vi)).isSome = true
      · simp only [h1, hD, h2, if_true, mem_setInsert]
        tauto
      · simp only [h1, hD, h2, if_true, mem_setInsert]
        simp only [Bool.false_eq_true, if_false, mem_setInsert]
        tauto
    · simp only [h1, hD, if_true, if_false, mem_setInsert]
      tauto
  · by_cases hD : D = Direction.UndirectedG
    · by_cases h2 : (vectorAt g.adjacencyMatrix (g.getIndex d vi)).isSome = true
      · simp only [h1, hD, h2, if_true, mem_setInsert]
        simp only [Bool.false_eq_true, if_false, mem_setInsert]
        tauto
      · simp only [h1, hD, h2, if_true]
        simp only [Bool.false_eq_true, if_false]
        tauto
    · simp only [h1, hD, if_false]
      simp only [Bool.false_eq_true, if_false]
      tauto

theorem pairwise_neighborsStep [LinearOrder V] [Inhabited V] (g : GraphMatrix V E D)
    (vi : Nat) (acc : List V) (d : Nat) (h : acc.Pairwise (fun a b => a < b)) :
    (neighborsStep g vi acc d).Pairwise (fun a b => a < b) := by
  unfold neighborsStep
  have h1 : (if (vectorAt g.adjacencyMatrix (g.getIndex vi d)).isSome = true then
      setInsert acc (g.indexToVertex.getD d default) else acc).Pairwise (fun a b => a < b) := by
    split
    · exact pairwise_setInsert _ _ h
    · exact h
  simp only
  split
  · split
    · exact pairwise_setInsert _ _ h1
    · exact h1
  · exact h1

/-- The labels collected by the loop of `getNeighbors` over a list of indices. -/
theorem mem_foldl_neighborsStep [LinearOrder V] [Inhabited V] (g : GraphMatrix V E D)
    (vi : Nat) (l : List Nat) :
    ∀ (acc : List V) (x : V),
      x ∈ l.foldl (neighborsStep g vi) acc ↔
        x ∈ acc ∨ ∃ d ∈ l,
          ((vectorAt g.adjacencyMatrix (g.getIndex vi d)).isSome = true ∨
            (D = Direction.UndirectedG ∧
              (vectorAt g.adjacencyMatrix (g.getIndex d vi)).isSome = true)) ∧
          x = g.indexToVertex.getD d default := by
  induction l with
  | nil => intro acc x; simp
  | cons a l ih =>
    intro acc x
    rw [List.foldl_cons, ih, mem_neighborsStep]
    constructor
    · rintro ((h | h) | ⟨d, hd, h⟩)
      · exact Or.inl h
      · exact Or.inr ⟨a, List.mem_cons_self a l, h⟩
      · exact Or.inr ⟨d, List.mem_cons_of_mem a hd, h⟩
    · rintro (h | ⟨d, hd, h⟩)
      · exact Or.inl (Or.inl h)
      · rcases List.mem_cons.1 hd with rfl | hd
        · exact Or.inl (Or.inr h)
        · exact Or.inr ⟨d, hd, h⟩

theorem pairwise_foldl_neighborsStep [LinearOrder V] [Inhabited V] (g : GraphMatrix V E D)
    (vi : Nat) (l : List Nat) :
    ∀ (acc : List V), acc.Pairwise (fun a b => a < b) →
      (l.foldl (neighborsStep g vi) acc).Pairwise (fun a b => a < b) := by
  induction l with
  | nil => intro acc h; exact h
  | cons a l ih =>
    intro acc h
    rw [List.foldl_cons]
    exact ih _ (pairwise_neighborsStep g vi acc a h)

/-- The result of `getNeighbors` in a state satisfying the invariant: a
strictly increasing list holding the labels whose slot, or mirrored slot when
the graph is undirected, is present. -/
theorem getNeighbors_of_inv [LinearOrder V] [Inhabited V] {g : GraphMatrix V E D}
    (hinv : Inv g) {v : V} {i : Nat} (hv : g.vertexToIndex.lookup v = some i) :
    ∃ l, g.getNeighbors v = .ok l ∧ l.Pairwise (fun a b => a < b) ∧
      ∀ w, w ∈ l ↔ ∃ j, g.vertexToIndex.lookup w = some j ∧
        ((vectorAt g.adjacencyMatrix (g.getIndex i j)).isSome = true ∨
          (D = Direction.UndirectedG ∧
            (vectorAt g.adjacencyMatrix (g.getIndex j i)).isSome = true)) := by
  refine ⟨_, getNeighbors_of_lookup hv,
    pairwise_foldl_neighborsStep g i _ [] List.Pairwise.nil, ?_⟩
  intro w
  rw [mem_foldl_neighborsStep]
  simp only [List.not_mem_nil, false_or, List.mem_range]
  constructor
  · rintro ⟨d, hd, hp, rfl⟩
    refine ⟨d, ?_, hp⟩
    rw [hinv.inverse]
    have hd2 : d < g.indexToVertex.length := by rw [hinv.labels_length]; exact hd
    rw [List.getD_eq_getElem _ _ hd2, List.getElem?_eq_getElem hd2]
  · rintro ⟨j, hj, hp⟩
    refine ⟨j, hinv.index_lt hj, hp, ?_⟩
    have := (hinv.inverse w j).1 hj
    rw [List.getD_eq_getElem?_getD, this]; rfl

/-- When `hasEdge` answers true. -/
theorem hasEdge_eq_true_iff [DecidableEq V] {g : GraphMatrix V E D} {v : V} {i : Nat}
    (hv : g.vertexToIndex.lookup v = some i) (w : V) :
    g.hasEdge v w = .ok true ↔
      ∃ j, g.vertexToIndex.lookup w = some j ∧
        (vectorAt g.adjacencyMatrix (g.getIndex i j)).isSome = true := by
  constructor
  · intro h
    by_cases hc : mapCount g.vertexToIndex v = 0 ∨ mapCount g.vertexToIndex w = 0
    · simp only [GraphMatrix.hasEdge, if_pos hc] at h; cases h
    · rw [not_or] at hc
      obtain ⟨j, hj⟩ := (mapCount_ne_zero_iff _ _).1 hc.2
      rw [hasEdge_of_lookup hv hj] at h
      exact ⟨j, hj, Except.ok.inj h⟩
  · rintro ⟨j, hj, hp⟩
    rw [hasEdge_of_lookup hv hj, hp]

/-- A strictly increasing list is determined by its members. -/
theorem eq_of_pairwise_lt_of_mem_iff [LinearOrder V] {l k : List V}
    (hl : l.Pairwise (fun a b => a < b)) (hk : k.Pairwise (fun a b => a < b))
    (h : ∀ x, x ∈ l ↔ x ∈ k) : l = k := by
  have hl2 : l.Nodup := hl.imp (fun hab => ne_of_lt hab)
  have hk2 : k.Nodup := hk.imp (fun hab => ne_of_lt hab)
  exact List.eq_of_perm_of_sorted ((List.perm_ext_iff_of_nodup hl2 hk2).2 h) hl hk

/-- C11: in a directed graph, in every reachable state and for a registered
label `v`, `getNeighbors(v)` succeeds with a strictly increasing (hence
duplicate-free) list whose members are exactly the labels `w` with
`hasEdge(v, w)` true, all of them registered; the list is empty when `v` has
no outgoing edge and is `[B, C]` when the outgoing edges go exactly to `B` and
`C` (named so that `B < C`). -/
theorem getNeighbors_directed [LinearOrder V] [Inhabited V]
    (g : GraphMatrix V E Direction.DirectedG) (hg : Reachable g) (v : V)
    (hv : mapCount g.vertexToIndex v ≠ 0) :
    ∃ l, g.getNeighbors v = .ok l ∧
      l.Pairwise (fun a b => a < b) ∧ l.Nodup ∧
      (∀ w, w ∈ l ↔ g.hasEdge v w = .ok true) ∧
      (∀ w ∈ l, mapCount g.vertexToIndex w ≠ 0) ∧
      ((∀ w, g.hasEdge v w ≠ .ok true) → l = []) ∧
      (∀ B C, B < C → (∀ w, g.hasEdge v w = .ok true ↔ w = B ∨ w = C) → l = [B, C]) := by
  obtain ⟨i, hi⟩ := (mapCount_ne_zero_iff _ _).1 hv
  obtain ⟨l, hget, hsorted, hmem⟩ := getNeighbors_of_inv hg.inv hi
  have hmem2 : ∀ w, w ∈ l ↔ g.hasEdge v w = .ok true := by
    intro w
    rw [hmem, hasEdge_eq_true_iff hi]
    constructor
    · rintro ⟨j, hj, hp | ⟨hD, _⟩⟩
      · exact ⟨j, hj, hp⟩
      · cases hD
    · rintro ⟨j, hj, hp⟩
      exact ⟨j, hj, Or.inl hp⟩
  refine ⟨l, hget, hsorted, hsorted.imp (fun hab => ne_of_lt hab), hmem2, ?_, ?_, ?_⟩
  · intro w hw
    obtain ⟨j, hj, _⟩ := (hmem w).1 hw
    exact (mapCount_ne_zero_iff _ _).2 ⟨j, hj⟩
  · intro hnone
    apply List.eq_nil_iff_forall_not_mem.2
    intro w hw
    exact hnone w ((hmem2 w).1 hw)
  · intro B C hBC hout
    apply eq_of_pairwise_lt_of_mem_iff hsorted
    · simp [hBC]
    · intro w
      rw [hmem2, hout]
      simp

/-- C11 at a concrete input: the label 1 of `exampleDirected`, whose only
outgoing edge goes to 2. -/
theorem getNeighbors_directed_witness :
    (Reachable exampleDirected ∧ mapCount exampleDirected.vertexToIndex 1 ≠ 0 ∧
      exampleDirected.getNeighbors 1 = .ok [2]) ∧
    ∃ l, exampleDirected.getNeighbors 1 = .ok l ∧
      l.Pairwise (fun a b => a < b) ∧ l.Nodup ∧
      (∀ w, w ∈ l ↔ exampleDirected.hasEdge 1 w = .ok true) ∧
      (∀ w ∈ l, mapCount exampleDirected.vertexToIndex w ≠ 0) ∧
      ((∀ w, exampleDirected.hasEdge 1 w ≠ .ok true) → l = []) ∧
      (∀ B C, B < C → (∀ w, exampleDirected.hasEdge 1 w = .ok true ↔ w = B ∨ w = C) →
        l = [B, C]) :=
  ⟨⟨exampleDirected_reachable, by decide, rfl⟩,
    getNeighbors_directed exampleDirected exampleDirected_reachable 1 (by decide)⟩

theorem exampleGrown_reachable : Reachable exampleGrown :=
  Reachable.addVertex [3] (Reachable.addEdge 1 2 5
    (Reachable.addVertex [1, 2] (Reachable.empty true)))

/-- C19: in an undirected graph, in every state satisfying the representation
invariant (whatever the matrix holds) and for a registered label `v` of index
`i`, `getNeighbors(v)` succeeds with a strictly increasing list whose members
are exactly the registered labels `w`, of index `j`, with slot `(i, j)` or
slot `(j, i)` present; when the matrix is symmetric these are exactly the
labels `w` with `hasEdge(v, w)` true. -/
theorem getNeighbors_undirected [LinearOrder V] [Inhabited V]
    (g : GraphMatrix V E Direction.UndirectedG) (hinv : Inv g) (v : V)
    (hv : mapCount g.vertexToIndex v ≠ 0) :
    ∃ l i, g.getNeighbors v = .ok l ∧ mapAt g.vertexToIndex v = .ok i ∧
      l.Pairwise (fun a b => a < b) ∧
      (∀ w, w ∈ l ↔ ∃ j, mapAt g.vertexToIndex w = .ok j ∧
        ((vectorAt g.adjacencyMatrix (g.getIndex i j)).isSome = true ∨
          (vectorAt g.adjacencyMatrix (g.getIndex j i)).isSome = true)) ∧
      ((∀ a b, a < g.numVertices → b < g.numVertices →
          (vectorAt g.adjacencyMatrix (g.getIndex a b)).isSome =
            (vectorAt g.adjacencyMatrix (g.getIndex b a)).isSome) →
        ∀ w, w ∈ l ↔ g.hasEdge v w = .ok true) := by
  obtain ⟨i, hi⟩ := (mapCount_ne_zero_iff _ _).1 hv
  obtain ⟨l, hget, hsorted, hmem⟩ := getNeighbors_of_inv hinv hi
  refine ⟨l, i, hget, mapAt_of_lookup hi, hsorted, ?_, ?_⟩
  · intro w
    rw [hmem]
    constructor
    · rintro ⟨j, hj, hp | ⟨_, hp⟩⟩
      · exact ⟨j, mapAt_of_lookup hj, Or.inl hp⟩
      · exact ⟨j, mapAt_of_lookup hj, Or.inr hp⟩
    · rintro ⟨j, hj, hp | hp⟩
      · exact ⟨j, lookup_of_mapAt hj, Or.inl hp⟩
      · exact ⟨j, lookup_of_mapAt hj, Or.inr ⟨rfl, hp⟩⟩
  · intro hsym w
    rw [hmem, hasEdge_eq_true_iff hi]
    constructor
    · rintro ⟨j, hj, hp | ⟨_, hp⟩⟩
      · exact ⟨j, hj, hp⟩
      · exact ⟨j, hj, by rw [hsym i j (hinv.index_lt hi) (hinv.index_lt hj)]; exact hp⟩
    · rintro ⟨j, hj, hp⟩
      exact ⟨j, hj, Or.inl hp⟩

/-- C19 at a concrete input: the label 2 of `exampleGrown`, whose matrix is not
symmetric: slot (1, 2) is present, slot (2, 1) is not, and `getNeighbors(2)`
is `[1]`. -/
theorem getNeighbors_undirected_witness :
    (Inv exampleGrown ∧ mapCount exampleGrown.vertexToIndex 2 ≠ 0 ∧
      exampleGrown.hasEdge 1 2 = .ok true ∧ exampleGrown.hasEdge 2 1 = .ok false ∧
      exampleGrown.getNeighbors 2 = .ok [1]) ∧
    ∃ l i, exampleGrown.getNeighbors 2 = .ok l ∧ mapAt exampleGrown.vertexToIndex 2 = .ok i ∧
      l.Pairwise (fun a b => a < b) ∧
      (∀ w, w ∈ l ↔ ∃ j, mapAt exampleGrown.vertexToIndex w = .ok j ∧
        ((vectorAt exampleGrown.adjacencyMatrix (exampleGrown.getIndex i j)).isSome = true ∨
          (vectorAt exampleGrown.adjacencyMatrix (exampleGrown.getIndex j i)).isSome = true)) ∧
      ((∀ a b, a < exampleGrown.numVertices → b < exampleGrown.numVertices →
          (vectorAt exampleGrown.adjacencyMatrix (exampleGrown.getIndex a b)).isSome =
            (vectorAt exampleGrown.adjacencyMatrix (exampleGrown.getIndex b a)).isSome) →
        ∀ w, w ∈ l ↔ exampleGrown.hasEdge 2 w = .ok true) :=
  ⟨⟨exampleGrown_reachable.inv, by decide, rfl, rfl, rfl⟩,
    getNeighbors_undirected exampleGrown exampleGrown_reachable.inv 2 (by decide)⟩

/-! ## Symmetry of the undirected matrix (C13) -/

/-- C13 (defect in the code): the undirected graph `exampleGrown` is reached by
`addVertex(1, 2)`, `addEdge(1, 2, 5)`, `addVertex(3)`.  Before the last call the
two mirrored slots are present with payload 5; after it slot (1, 2) is present
and slot (2, 1) is absent: `hasEdge(1, 2)` is true, `hasEdge(2, 1)` is false,
`getEdge(1, 2)` returns 5 and `getEdge(2, 1)` throws no-such-edge. -/
theorem undirected_growth_breaks_symmetry :
    Reachable exampleGrown ∧
    (∃ g : GraphMatrix Nat Int Direction.UndirectedG,
      ((GraphMatrix.empty true).addVertex [1, 2]).addEdge 1 2 5 = (.ok (), g) ∧
      g.hasEdge 1 2 = .ok true ∧ g.hasEdge 2 1 = .ok true ∧
      g.getEdge 1 2 = .ok 5 ∧ g.getEdge 2 1 = .ok 5 ∧
      g.addVertex [3] = exampleGrown) ∧
    mapAt exampleGrown.vertexToIndex 1 = .ok 0 ∧
    mapAt exampleGrown.vertexToIndex 2 = .ok 1 ∧
    (vectorAt exampleGrown.adjacencyMatrix (exampleGrown.getIndex 0 1)).isSome = true ∧
    (vectorAt exampleGrown.adjacencyMatrix (exampleGrown.getIndex 1 0)).isSome = false ∧
    exampleGrown.hasEdge 1 2 = .ok true ∧
    exampleGrown.hasEdge 2 1 = .ok false ∧
    exampleGrown.getEdge 1 2 = .ok 5 ∧
    exampleGrown.getEdge 2 1 =
      .error (.runtime_error "No Edge exists between the given vertices.") := by
  refine ⟨exampleGrown_reachable, ⟨_, rfl, ?_, ?_, ?_, ?_, ?_⟩, ?_, ?_, ?_, ?_, ?_, ?_, ?_, ?_⟩ <;>
    rfl

/-! ## The scenario of the specification (C15) -/

/-- The state after registering three distinct labels in one call. -/
theorem addVertex_three [DecidableEq V] (A B C : V) (hAB : A ≠ B) (hAC : A ≠ C)
    (hBC : B ≠ C) (weighted : Bool) :
    (GraphMatrix.empty weighted : GraphMatrix V E D).addVertex [A, B, C] =
      { vertexToIndex := [(C, 2), (B, 1), (A, 0)]
        indexToVertex := [A, B, C]
        adjacencyMatrix := List.replicate 9 none
        numVertices := 3
        isDirected := decide (D = Direction.DirectedG)
        isWeighted := weighted } := by
  have hBA : B ≠ A := fun h => hAB h.symm
  have hCA : C ≠ A := fun h => hAC h.symm
  have hCB : C ≠ B := fun h => hBC h.symm
  simp [GraphMatrix.addVertex, GraphMatrix.add_single_vertex, GraphMatrix.empty, mapCount,
    mapAssign, vectorResize, lookup_cons_fresh, hBA, hCA, hCB, hAB, hAC, hBC]

/-- The state of the scenario, written out. -/
theorem scenario_state [DecidableEq V] (A B C : V) (hAB : A ≠ B) (hAC : A ≠ C)
    (hBC : B ≠ C) :
    scenario A B C =
      { vertexToIndex := [(C, 2), (B, 1), (A, 0)]
        indexToVertex := [A, B, C]
        adjacencyMatrix :=
          [none, some ⟨10⟩, none, none, none, some ⟨20⟩, none, none, none]
        numVertices := 3
        isDirected := true
        isWeighted := true } := by
  have hBA : B ≠ A := fun h => hAB h.symm
  have hCA : C ≠ A := fun h => hAC h.symm
  have hCB : C ≠ B := fun h => hBC h.symm
  unfold scenario
  rw [addVertex_three A B C hAB hAC hBC]
  simp [GraphMatrix.addEdge, mapCount, mapAt, lookup_cons_fresh, GraphMatrix.getIndex,
    hBA, hCA, hCB, hAB, hAC, hBC, List.replicate]

/-- C15: on a directed graph with integer payloads, after registering three
distinct labels `A`, `B`, `C` (in one call or in three) and the two
successful calls `addEdge(A, B, 10)`, `addEdge(B, C, 20)`: `hasEdge(A, C)` is
false, `getEdge(A, B)` returns 10, `getNeighbors(A)` is `[B]`, and
`getAllEdges()` is `[(A, B, 10), (B, C, 20)]`, two triples. -/
theorem scenario_spec [LinearOrder V] [Inhabited V] (A B C : V) (hAB : A ≠ B)
    (hAC : A ≠ C) (hBC : B ≠ C) :
    ((((GraphMatrix.empty true : GraphMatrix V Int Direction.DirectedG).addVertex
        [A]).addVertex [B]).addVertex [C] =
      (GraphMatrix.empty true : GraphMatrix V Int Direction.DirectedG).addVertex [A, B, C]) ∧
    (((GraphMatrix.empty true : GraphMatrix V Int Direction.DirectedG).addVertex
        [A, B, C]).addEdge A B 10).1 = .ok () ∧
    ((((GraphMatrix.empty true : GraphMatrix V Int Direction.DirectedG).addVertex
        [A, B, C]).addEdge A B 10).2.addEdge B C 20).1 = .ok () ∧
    (scenario A B C).hasEdge A C = .ok false ∧
    (scenario A B C).getEdge A B = .ok 10 ∧
    (scenario A B C).getNeighbors A = .ok [B] ∧
    (scenario A B C).getAllEdges = [(A, B, 10), (B, C, 20)] ∧
    (scenario A B C).getAllEdges.length = 2 := by
  have hBA : B ≠ A := fun h => hAB h.symm
  have hCA : C ≠ A := fun h => hAC h.symm
  have hCB : C ≠ B := fun h => hBC h.symm
  have hr : List.range 3 = [0, 1, 2] := rfl
  refine ⟨?_, ?_, ?_, ?_, ?_, ?_, ?_, ?_⟩
  · rw [addVertex_three A B C hAB hAC hBC]
    simp [GraphMatrix.addVertex, GraphMatrix.add_single_vertex, GraphMatrix.empty, mapCount,
      mapAssign, vectorResize, lookup_cons_fresh, hBA, hCA, hCB, hAB, hAC, hBC]
  · rw [addVertex_three A B C hAB hAC hBC]
    simp [GraphMatrix.addEdge, mapCount, mapAt, lookup_cons_fresh, hBA, hCA, hCB, hAB, hAC,
      hBC]
  · rw [addVertex_three A B C hAB hAC hBC]
    simp [GraphMatrix.addEdge, mapCount, mapAt, lookup_cons_fresh, hBA, hCA, hCB, hAB, hAC,
      hBC]
  · rw [scenario_state A B C hAB hAC hBC]
    simp [GraphMatrix.hasEdge, mapCount, mapAt, lookup_cons_fresh, GraphMatrix.getIndex,
      vectorAt, hBA, hCA, hCB, hAB, hAC, hBC]
  · rw [scenario_state A B C hAB hAC hBC]
    simp [GraphMatrix.getEdge, mapCount, mapAt, lookup_cons_fresh, GraphMatrix.getIndex,
      vectorAt, hBA, hCA, hCB, hAB, hAC, hBC]
  · rw [scenario_state A B C hAB hAC hBC]
    simp [GraphMatrix.getNeighbors, neighborsStep, mapCount, mapAt, lookup_cons_fresh,
      GraphMatrix.getIndex, vectorAt, setInsert, hr, hBA, hCA, hCB, hAB, hAC, hBC]
  · rw [scenario_state A B C hAB hAC hBC]
    simp [GraphMatrix.getAllEdges, GraphMatrix.getIndex, vectorAt, hr]
  · rw [scenario_state A B C hAB hAC hBC]
    simp [GraphMatrix.getAllEdges, GraphMatrix.getIndex, vectorAt, hr]

/-- C15 at a concrete input: the labels 1, 2, 3. -/
theorem scenario_spec_witness :
    ((1 : Nat) ≠ 2 ∧ (1 : Nat) ≠ 3 ∧ (2 : Nat) ≠ 3) ∧
    ((((GraphMatrix.empty true : GraphMatrix Nat Int Direction.DirectedG).addVertex
        [1]).addVertex [2]).addVertex [3] =
      (GraphMatrix.empty true : GraphMatrix Nat Int Direction.DirectedG).addVertex [1, 2, 3]) ∧
    (((GraphMatrix.empty true : GraphMatrix Nat Int Direction.DirectedG).addVertex
        [1, 2, 3]).addEdge 1 2 10).1 = .ok () ∧
    ((((GraphMatrix.empty true : GraphMatrix Nat Int Direction.DirectedG).addVertex
        [1, 2, 3]).addEdge 1 2 10).2.addEdge 2 3 20).1 = .ok () ∧
    (scenario 1 2 3).hasEdge 1 3 = .ok false ∧
    (scenario 1 2 3).getEdge 1 2 = .ok 10 ∧
    (scenario 1 2 3).getNeighbors 1 = .ok [2] ∧
    (scenario 1 2 3).getAllEdges = [(1, 2, 10), (2, 3, 20)] ∧
    (scenario 1 2 3).getAllEdges.length = 2 :=
  ⟨⟨by decide, by decide, by decide⟩,
    scenario_spec 1 2 3 (by decide) (by decide) (by decide)⟩

/-! ## The effect of growth on the matrix (C20) -/

theorem vectorAt_append_replicate (v : List (Option (EdgeInfo E))) (c k : Nat) :
    vectorAt (v ++ List.replicate c none) k = if k < v.length then vectorAt v k else none := by
  unfold vectorAt
  rw [List.getD_eq_getElem?_getD, List.getD_eq_getElem?_getD, List.getElem?_append]
  by_cases hk : k < v.length
  · rw [if_pos hk, if_pos hk]
  · rw [if_neg hk, if_neg hk, List.getElem?_replicate]
    split <;> rfl

/-- In a state satisfying the invariant `addVertex` appends absent slots to the
flat matrix and changes no existing entry. -/
theorem addVertex_matrix_append [DecidableEq V] {g : GraphMatrix V E D} (hinv : Inv g)
    (vertices : List V) (hle : g.numVertices ≤ (g.addVertex vertices).numVertices) :
    (g.addVertex vertices).adjacencyMatrix =
      g.adjacencyMatrix ++
        List.replicate ((g.addVertex vertices).numVertices * (g.addVertex vertices).numVertices -
          g.numVertices * g.numVertices) none := by
  have hlen : g.adjacencyMatrix.length ≤
      (g.addVertex vertices).numVertices * (g.addVertex vertices).numVertices := by
    rw [hinv.matrix_length]; exact Nat.mul_le_mul hle hle
  rw [addVertex_matrix]
  unfold vectorResize
  rw [List.take_of_length_le hlen, hinv.matrix_length]

/-- C20: in a reachable state, when an `addVertex` call raises the vertex count
from `n` to `m > n`, the matrix after the call is the matrix before it followed
by `m * m - n * n` absent entries: flat positions below `n * n` keep their
entry, all others are absent.  So slot `(i, j)` after the call holds the old
flat entry `i * m + j` when that is below `n * n` and is absent otherwise; the
entry of the old slot `(i, j)` is read after the call at the pair `(i', j')`
with `i' * m + j' = i * n + j`, which is `(i, j)` exactly when `i = 0`; and
`getAllEdges()` has the same length before and after. -/
theorem addVertex_growth [DecidableEq V] [Inhabited V] (g : GraphMatrix V E D)
    (hg : Reachable g) (vertices : List V) (n m : Nat) (hn : g.numVertices = n)
    (hm : (g.addVertex vertices).numVertices = m) (hgrow : n < m) :
    (g.addVertex vertices).adjacencyMatrix =
      g.adjacencyMatrix ++ List.replicate (m * m - n * n) none ∧
    (∀ k, k < n * n →
      vectorAt (g.addVertex vertices).adjacencyMatrix k = vectorAt g.adjacencyMatrix k) ∧
    (∀ k, n * n ≤ k → vectorAt (g.addVertex vertices).adjacencyMatrix k = none) ∧
    (∀ i j, i < m → j < m →
      vectorAt (g.addVertex vertices).adjacencyMatrix ((g.addVertex vertices).getIndex i j) =
        if i * m + j < n * n then vectorAt g.adjacencyMatrix (i * m + j) else none) ∧
    (∀ i j, i < n → j < n → ∃ i1 j1, i1 < m ∧ j1 < m ∧ i1 * m + j1 = i * n + j ∧
      vectorAt (g.addVertex vertices).adjacencyMatrix
          ((g.addVertex vertices).getIndex i1 j1) =
        vectorAt g.adjacencyMatrix (g.getIndex i j) ∧
      ((i1 = i ∧ j1 = j) ↔ i = 0)) ∧
    (g.addVertex vertices).getAllEdges.length = g.getAllEdges.length := by
  have hinv := hg.inv
  have hinv2 := hinv.addVertex vertices
  have hlen : g.adjacencyMatrix.length = n * n := by rw [hinv.matrix_length, hn]
  have hmat : (g.addVertex vertices).adjacencyMatrix =
      g.adjacencyMatrix ++ List.replicate (m * m - n * n) none := by
    have := addVertex_matrix_append hinv vertices (by rw [hn, hm]; exact Nat.le_of_lt hgrow)
    rw [hn, hm] at this
    exact this
  have hat : ∀ k, vectorAt (g.addVertex vertices).adjacencyMatrix k =
      if k < n * n then vectorAt g.adjacencyMatrix k else none := by
    intro k
    rw [hmat, vectorAt_append_replicate, hlen]
  have hidx : ∀ i j, (g.addVertex vertices).getIndex i j = i * m + j := by
    intro i j
    unfold GraphMatrix.getIndex
    rw [hm]
  have hm0 : 0 < m := Nat.lt_of_le_of_lt (Nat.zero_le n) hgrow
  refine ⟨hmat, ?_, ?_, ?_, ?_, ?_⟩
  · intro k hk
    rw [hat, if_pos hk]
  · intro k hk
    rw [hat, if_neg (Nat.not_lt.2 hk)]
  · intro i j _ _
    rw [hidx, hat]
  · intro i j hi hj
    have hx : i * n + j < n * n := flat_index_lt hi hj
    have hnm : n * n ≤ m * m := Nat.mul_le_mul (Nat.le_of_lt hgrow) (Nat.le_of_lt hgrow)
    have hdm : (i * n + j) / m * m + (i * n + j) % m = i * n + j := by
      rw [Nat.mul_comm]; exact Nat.div_add_mod _ _
    refine ⟨(i * n + j) / m, (i * n + j) % m,
      Nat.div_lt_of_lt_mul (Nat.lt_of_lt_of_le hx hnm), Nat.mod_lt _ hm0, hdm, ?_, ?_⟩
    · rw [hidx, hdm, hat, if_pos hx]
      unfold GraphMatrix.getIndex
      rw [hn]
    · constructor
      · rintro ⟨h1, h2⟩
        rw [h1, h2] at hdm
        have h3 : i * m = i * n := Nat.add_right_cancel hdm
        by_contra hi0
        have := Nat.eq_of_mul_eq_mul_left (Nat.pos_of_ne_zero hi0) h3
        omega
      · intro hi0
        subst hi0
        have hjm : j < m := Nat.lt_trans hj hgrow
        simp only [Nat.zero_mul, Nat.zero_add]
        exact ⟨Nat.div_eq_of_lt hjm, Nat.mod_eq_of_lt hjm⟩
  · rw [length_getAllEdges hinv2, length_getAllEdges hinv, hmat, List.countP_append,
      List.countP_replicate]
    simp

theorem exampleBeforeGrowth_reachable : Reachable exampleBeforeGrowth :=
  Reachable.addEdge 1 2 5 (Reachable.addVertex [1, 2] (Reachable.empty true))

/-- C20 at a concrete input: registering 3 on `exampleBeforeGrowth` raises the
vertex count from 2 to 3. -/
theorem addVertex_growth_witness :
    (Reachable exampleBeforeGrowth ∧ exampleBeforeGrowth.numVertices = 2 ∧
      (exampleBeforeGrowth.addVertex [3]).numVertices = 3 ∧ 2 < 3) ∧
    (exampleBeforeGrowth.addVertex [3]).adjacencyMatrix =
      exampleBeforeGrowth.adjacencyMatrix ++ List.replicate (3 * 3 - 2 * 2) none ∧
    (∀ k, k < 2 * 2 →
      vectorAt (exampleBeforeGrowth.addVertex [3]).adjacencyMatrix k =
        vectorAt exampleBeforeGrowth.adjacencyMatrix k) ∧
    (∀ k, 2 * 2 ≤ k → vectorAt (exampleBeforeGrowth.addVertex [3]).adjacencyMatrix k = none) ∧
    (∀ i j, i < 3 → j < 3 →
      vectorAt (exampleBeforeGrowth.addVertex [3]).adjacencyMatrix
          ((exampleBeforeGrowth.addVertex [3]).getIndex i j) =
        if i * 3 + j < 2 * 2 then vectorAt exampleBeforeGrowth.adjacencyMatrix (i * 3 + j)
        else none) ∧
    (∀ i j, i < 2 → j < 2 → ∃ i1 j1, i1 < 3 ∧ j1 < 3 ∧ i1 * 3 + j1 = i * 2 + j ∧
      vectorAt (exampleBeforeGrowth.addVertex [3]).adjacencyMatrix
          ((exampleBeforeGrowth.addVertex [3]).getIndex i1 j1) =
        vectorAt exampleBeforeGrowth.adjacencyMatrix (exampleBeforeGrowth.getIndex i j) ∧
      ((i1 = i ∧ j1 = j) ↔ i = 0)) ∧
    (exampleBeforeGrowth.addVertex [3]).getAllEdges.length =
      exampleBeforeGrowth.getAllEdges.length :=
  ⟨⟨exampleBeforeGrowth_reachable, rfl, rfl, by decide⟩,
    addVertex_growth exampleBeforeGrowth exampleBeforeGrowth_reachable [3] 2 3 rfl rfl
      (by decide)⟩

/-! ## A single inserted edge followed by growth (C10) -/

/-- C10 (defect in the code): with the labels 1 and 2 registered and
`addEdge(1, 2, 5)` the only edge operation, `getAllEdges()` is the expected
list right after the insertion, but not after a further `addVertex(3)`: the
undirected graph then lists `(1, 2, 5)` and `(1, 3, 5)` instead of `(1, 2, 5)`
and `(2, 1, 5)`, and the directed graph (labels registered as 2, 1) lists the
single triple `(2, 3, 5)` instead of `(1, 2, 5)`. -/
theorem getAllEdges_after_growth :
    (Reachable exampleGrown ∧
      exampleBeforeGrowth =
        (((GraphMatrix.empty true : GraphMatrix Nat Int Direction.UndirectedG).addVertex
          [1, 2]).addEdge 1 2 5).2 ∧
      exampleGrown = exampleBeforeGrowth.addVertex [3] ∧
      mapCount exampleGrown.vertexToIndex 1 ≠ 0 ∧ mapCount exampleGrown.vertexToIndex 2 ≠ 0 ∧
      exampleBeforeGrowth.getAllEdges = [(1, 2, 5), (2, 1, 5)] ∧
      exampleGrown.getAllEdges = [(1, 2, 5), (1, 3, 5)] ∧
      (2, 1, 5) ∉ exampleGrown.getAllEdges) ∧
    (Reachable exampleDirectedGrown ∧
      (∃ g : GraphMatrix Nat Int Direction.DirectedG,
        ((GraphMatrix.empty true).addVertex [2, 1]).addEdge 1 2 5 = (.ok (), g) ∧
        g.getAllEdges = [(1, 2, 5)] ∧
        g.addVertex [3] = exampleDirectedGrown) ∧
      mapCount exampleDirectedGrown.vertexToIndex 1 ≠ 0 ∧
      mapCount exampleDirectedGrown.vertexToIndex 2 ≠ 0 ∧
      exampleDirectedGrown.getAllEdges = [(2, 3, 5)] ∧
      (1, 2, 5) ∉ exampleDirectedGrown.getAllEdges) := by
  refine ⟨⟨exampleGrown_reachable, rfl, rfl, by decide, by decide, rfl, rfl, by decide⟩,
    ⟨Reachable.addVertex [3] (Reachable.addEdge 1 2 5
      (Reachable.addVertex [2, 1] (Reachable.empty true))),
      ⟨_, rfl, rfl, rfl⟩, by decide, by decide, rfl, by decide⟩⟩

end GraphMatrix

end Appledore
